import Mathlib

/-!
Verification of the real-time chat core of `rostra-chat-app`.

This file is a shallow embedding, in Lean 4, of the parts of the backend that
the specification talks about:

* `app/websocket/connection_manager.py` — the in-memory connection registry
  (active connections, room subscriptions, fixed-window rate limiter,
  broadcast with dead-connection reaping);
* `app/websocket/handlers.py` — the protocol dispatcher and the
  subscribe / unsubscribe / send_message / user_typing handlers;
* `app/services/cache_service.py` and `app/crud/user_room.py` — the
  unread-count cache and its durable fallback;
* `app/crud/message.py` and `app/api/messages.py` — keyset pagination;
* `app/utils/cursor.py` — the base64/JSON cursor codec.

Python dictionaries are modelled as association lists (insertion order is the
iteration order, as in CPython), Python sets as duplicate-free lists in
insertion order, `time.monotonic()` readings as rationals supplied by the
caller, and I/O (database queries, Redis calls, WebSocket sends) as explicit
effect traces returned by the embedded handlers.
-/

namespace Rostra

abbrev Conn := Nat
abbrev UserId := Nat
abbrev RoomId := Nat

/-- Association-list lookup, mirroring `dict.get` / `dict[k]` on a CPython
dict whose iteration order is insertion order. -/
def assocFind {α : Type} (l : List (Nat × α)) (k : Nat) : Option α :=
  (l.find? (fun p => p.1 == k)).map (·.2)

/-- Association-list update, mirroring `d[k] = v`: replaces the value in
place if the key is present (keys are unique in a dict, so replacing the
first occurrence suffices), appends otherwise. -/
def assocSet {α : Type} : List (Nat × α) → Nat → α → List (Nat × α)
  | [], k, v => [(k, v)]
  | p :: t, k, v => if p.1 = k then (k, v) :: t else p :: assocSet t k v

/-- Association-list deletion, mirroring `del d[k]`. -/
def assocErase {α : Type} (l : List (Nat × α)) (k : Nat) : List (Nat × α) :=
  l.filter (fun p => p.1 ≠ k)

/-- Python `set.add`: a no-op when the element is present, append otherwise. -/
def setAdd (s : List Conn) (c : Conn) : List Conn :=
  if s.contains c then s else s ++ [c]

/-- `ConnectionManager.MAX_SUBSCRIPTIONS_PER_CONNECTION` in
`connection_manager.py`. -/
def MAX_SUBSCRIPTIONS_PER_CONNECTION : Nat := 50

/-- The mutable state of `ConnectionManager`:
`active_connections : dict[WebSocket, int]`,
`room_subscriptions : dict[int, set[WebSocket]]`, and
`_message_counts : dict[int, tuple[float, int]]`. -/
structure CMState where
  active_connections : List (Conn × UserId)
  room_subscriptions : List (RoomId × List Conn)
  message_counts : List (UserId × (Rat × Nat))
deriving Repr, DecidableEq

/-- `ConnectionManager.connect` (after `websocket.accept()`):
registers the connection. -/
def CMState.connect (st : CMState) (ws : Conn) (user_id : UserId) : CMState :=
  { st with active_connections := assocSet st.active_connections ws user_id }

/-- `ConnectionManager.disconnect`: drops the connection from
`active_connections`, removes it from every room's subscriber set, deletes
rooms whose set became empty, and returns the rooms the connection was in.
The rate-limit state `_message_counts` is intentionally left untouched. -/
def CMState.disconnect (st : CMState) (ws : Conn) : List RoomId × CMState :=
  let active' := st.active_connections.filter (fun p => p.1 ≠ ws)
  let rooms_user_was_in := (st.room_subscriptions.filter (fun p => p.2.contains ws)).map (·.1)
  let subs' := st.room_subscriptions.filterMap (fun p =>
    if p.2.contains ws then
      let s' := p.2.filter (fun c => c ≠ ws)
      if s'.isEmpty then none else some (p.1, s')
    else some p)
  (rooms_user_was_in,
   { st with active_connections := active', room_subscriptions := subs' })

/-- `ConnectionManager.check_message_rate`: fixed-window limiter.
`now` is the `time.monotonic()` reading at the call. -/
def CMState.check_message_rate (st : CMState) (user_id : UserId)
    (max_per_minute : Nat) (now : Rat) : Bool × CMState :=
  let wc := (assocFind st.message_counts user_id).getD (now, 0)
  if (60 : Rat) ≤ now - wc.1 then
    (true, { st with message_counts := assocSet st.message_counts user_id (now, 1) })
  else if max_per_minute ≤ wc.2 then
    (false, st)
  else
    (true, { st with message_counts := assocSet st.message_counts user_id (wc.1, wc.2 + 1) })

/-- The guard `room_id in self.room_subscriptions and websocket in
self.room_subscriptions[room_id]` from `subscribe_to_room`. -/
def CMState.wsSubscribed (st : CMState) (ws : Conn) (room_id : RoomId) : Bool :=
  (assocFind st.room_subscriptions room_id).elim false (fun s => s.contains ws)

/-- The `subscription_count` sum in `subscribe_to_room`: the number of rooms
whose subscriber set contains the connection. -/
def CMState.subscriptionCount (st : CMState) (ws : Conn) : Nat :=
  (st.room_subscriptions.filter (fun p => p.2.contains ws)).length

/-- `ConnectionManager.subscribe_to_room`: true (no-op) when already
subscribed; false without mutation when the per-connection cap would be
exceeded; otherwise adds the connection to the room's set (creating the
entry if needed). -/
def CMState.subscribe_to_room (st : CMState) (ws : Conn) (room_id : RoomId) :
    Bool × CMState :=
  if st.wsSubscribed ws room_id then
    (true, st)
  else if MAX_SUBSCRIPTIONS_PER_CONNECTION ≤ st.subscriptionCount ws then
    (false, st)
  else
    match assocFind st.room_subscriptions room_id with
    | none =>
        (true, { st with
          room_subscriptions := st.room_subscriptions ++ [(room_id, setAdd [] ws)] })
    | some s =>
        (true, { st with
          room_subscriptions := assocSet st.room_subscriptions room_id (setAdd s ws) })

/-- `ConnectionManager.unsubscribe_from_room`: `set.discard` then deletion of
the room entry once its set is empty. -/
def CMState.unsubscribe_from_room (st : CMState) (ws : Conn) (room_id : RoomId) :
    CMState :=
  match assocFind st.room_subscriptions room_id with
  | none => st
  | some s =>
    let s' := s.filter (fun c => c ≠ ws)
    if s'.isEmpty then
      { st with room_subscriptions := assocErase st.room_subscriptions room_id }
    else
      { st with room_subscriptions := assocSet st.room_subscriptions room_id s' }

/-- `ConnectionManager.broadcast_to_room`. `healthy c = false` models
`connection.send_json` raising for connection `c`. Returns the list of
(connection, message) deliveries that succeeded, in iteration order, plus the
updated state: every connection whose send failed is discarded from the
room's set, and the entry is deleted when the set becomes empty. -/
def CMState.broadcast_to_room {α : Type} (st : CMState) (room_id : RoomId)
    (message : α) (exclude : Option Conn) (healthy : Conn → Bool) :
    List (Conn × α) × CMState :=
  match assocFind st.room_subscriptions room_id with
  | none => ([], st)
  | some subs =>
    let attempted := subs.filter (fun c => exclude ≠ some c)
    let delivered := (attempted.filter (fun c => healthy c)).map (fun c => (c, message))
    let dead_connections := attempted.filter (fun c => !healthy c)
    if dead_connections.isEmpty then
      (delivered, st)
    else
      let subs' := subs.filter (fun c => !dead_connections.contains c)
      if subs'.isEmpty then
        (delivered,
         { st with room_subscriptions := assocErase st.room_subscriptions room_id })
      else
        (delivered,
         { st with room_subscriptions := assocSet st.room_subscriptions room_id subs' })

/-- `ConnectionManager.get_room_users`: resolves the room's subscribed
connections through `active_connections` and fetches the matching users from
the database (`users` is the `users` table as a list of (id, username)). -/
def CMState.get_room_users (st : CMState) (room_id : RoomId)
    (users : List (UserId × String)) : List (UserId × String) :=
  match assocFind st.room_subscriptions room_id with
  | none => []
  | some subs =>
    let user_ids := subs.filterMap (fun ws => assocFind st.active_connections ws)
    users.filter (fun u => user_ids.contains u.1)

/-! Basic lemmas about the association-list model of CPython dicts. -/

theorem assocFind_nil {α : Type} (k : Nat) : assocFind ([] : List (Nat × α)) k = none := rfl

theorem assocFind_cons {α : Type} (p : Nat × α) (t : List (Nat × α)) (k : Nat) :
    assocFind (p :: t) k = if p.1 = k then some p.2 else assocFind t k := by
  by_cases h : p.1 = k <;> simp [assocFind, List.find?_cons, h]

theorem assocFind_assocSet_self {α : Type} (l : List (Nat × α)) (k : Nat) (v : α) :
    assocFind (assocSet l k v) k = some v := by
  induction l with
  | nil => simp [assocSet, assocFind_cons]
  | cons p t ih =>
    by_cases h : p.1 = k <;> simp [assocSet, h, assocFind_cons, ih]

theorem assocFind_assocSet_ne {α : Type} (l : List (Nat × α)) (k k' : Nat) (v : α)
    (h : k' ≠ k) : assocFind (assocSet l k v) k' = assocFind l k' := by
  induction l with
  | nil => simp [assocSet, assocFind_cons, assocFind_nil, Ne.symm h]
  | cons p t ih =>
    by_cases hp : p.1 = k
    · simp [assocSet, hp, assocFind_cons, Ne.symm h]
    · simp [assocSet, hp, assocFind_cons, ih]

theorem assocFind_assocErase_self {α : Type} (l : List (Nat × α)) (k : Nat) :
    assocFind (assocErase l k) k = none := by
  induction l with
  | nil => rfl
  | cons p t ih =>
    by_cases h : p.1 = k
    · simpa [assocErase, List.filter_cons, h] using ih
    · simpa [assocErase, List.filter_cons, h, assocFind_cons] using ih

theorem assocFind_assocErase_ne {α : Type} (l : List (Nat × α)) (k k' : Nat)
    (h : k' ≠ k) : assocFind (assocErase l k) k' = assocFind l k' := by
  induction l with
  | nil => rfl
  | cons p t ih =>
    simp only [assocErase] at ih ⊢
    by_cases hp : p.1 = k
    · rw [List.filter_cons, if_neg (by simp [hp]), ih, assocFind_cons,
        if_neg (by rw [hp]; exact Ne.symm h)]
    · rw [List.filter_cons, if_pos (by simp [hp]), assocFind_cons, assocFind_cons, ih]

/-- C6 helper: the reaped subscriber list equals the survivors filter. -/
theorem broadcast_survivors_eq (S : List Conn) (exclude : Option Conn)
    (healthy : Conn → Bool) :
    S.filter (fun c => !((S.filter (fun c => exclude ≠ some c)).filter
        (fun c => !healthy c)).contains c)
      = S.filter (fun c => !(decide (exclude ≠ some c) && !healthy c)) := by
  apply List.filter_congr
  intro c hc
  simp [List.elem_eq_mem, List.mem_filter, hc, Bool.or_comm]

/-- Helper: the deliveries of `broadcast_to_room` when the room has an entry. -/
theorem broadcast_fst {α : Type} (st : CMState) (room_id : RoomId) (S : List Conn)
    (message : α) (exclude : Option Conn) (healthy : Conn → Bool)
    (hS : assocFind st.room_subscriptions room_id = some S) :
    (st.broadcast_to_room room_id message exclude healthy).1
      = ((S.filter (fun c => exclude ≠ some c)).filter (fun c => healthy c)).map
          (fun c => (c, message)) := by
  simp only [CMState.broadcast_to_room, hS, apply_ite
    (Prod.fst (α := List (Conn × α)) (β := CMState)), ite_self]

/-- Helper: the state produced by `broadcast_to_room` when the room has an
entry. -/
theorem broadcast_snd {α : Type} (st : CMState) (room_id : RoomId) (S : List Conn)
    (message : α) (exclude : Option Conn) (healthy : Conn → Bool)
    (hS : assocFind st.room_subscriptions room_id = some S) :
    (st.broadcast_to_room room_id message exclude healthy).2
      = (if ((S.filter (fun c => exclude ≠ some c)).filter (fun c => !healthy c)).isEmpty
         then st
         else if (S.filter (fun c => !(decide (exclude ≠ some c) && !healthy c))).isEmpty
         then { st with room_subscriptions := assocErase st.room_subscriptions room_id }
         else { st with room_subscriptions := (assocSet st.room_subscriptions room_id (S.filter (fun c => !(decide (exclude ≠ some c) && !healthy c)))) }) := by
  simp only [CMState.broadcast_to_room, hS, broadcast_survivors_eq, apply_ite
    (Prod.snd (α := List (Conn × α)) (β := CMState))]

/-- Helper: broadcasting when every attempted send succeeds delivers to each
non-excluded subscriber and leaves the state unchanged. -/
theorem broadcast_all_healthy {α : Type} (st : CMState) (room_id : RoomId) (S : List Conn)
    (message : α) (exclude : Option Conn) (healthy : Conn → Bool)
    (hS : assocFind st.room_subscriptions room_id = some S)
    (hh : ∀ c ∈ S, healthy c = true) :
    st.broadcast_to_room room_id message exclude healthy
      = ((S.filter (fun c => exclude ≠ some c)).map (fun c => (c, message)), st) := by
  have hdead : (S.filter (fun c => exclude ≠ some c)).filter (fun c => !healthy c) = [] := by
    apply List.filter_eq_nil_iff.mpr
    intro c hc
    simp [hh c (List.mem_of_mem_filter hc)]
  have hfilter : (S.filter (fun c => exclude ≠ some c)).filter (fun c => healthy c)
      = S.filter (fun c => exclude ≠ some c) := by
    apply List.filter_eq_self.mpr
    intro c hc
    exact hh c (List.mem_of_mem_filter hc)
  have h1 := broadcast_fst st room_id S message exclude healthy hS
  have h2 := broadcast_snd st room_id S message exclude healthy hS
  rw [hdead] at h2
  simp only [List.isEmpty_nil, if_true] at h2
  rw [hfilter] at h1
  exact Prod.ext h1 h2

/-- Helper: broadcasting to a room with no subscriber entry does nothing. -/
theorem broadcast_none {α : Type} (st : CMState) (room_id : RoomId)
    (message : α) (exclude : Option Conn) (healthy : Conn → Bool)
    (hS : assocFind st.room_subscriptions room_id = none) :
    st.broadcast_to_room room_id message exclude healthy = ([], st) := by
  simp only [CMState.broadcast_to_room, hS]

/-- C6: broadcasting to a room with failing and healthy subscribers delivers
exactly to the healthy non-excluded subscribers (one failure never blocks the
others), removes exactly the connections whose send failed from the room's
subscriber set in the same call, deletes the room entry entirely when every
subscriber failed, leaves every other room's entry and the rest of the
registry state unchanged. -/
theorem broadcast_to_room_partial_failure {α : Type} (st : CMState) (room_id : RoomId)
    (S : List Conn) (message : α) (exclude : Option Conn) (healthy : Conn → Bool)
    (hS : assocFind st.room_subscriptions room_id = some S) (hne : S ≠ []) :
    (∀ c : Conn,
      (c, message) ∈ (st.broadcast_to_room room_id message exclude healthy).1 ↔
        (c ∈ S ∧ exclude ≠ some c ∧ healthy c = true)) ∧
    assocFind (st.broadcast_to_room room_id message exclude healthy).2.room_subscriptions
        room_id =
      (if (S.filter (fun c => !(decide (exclude ≠ some c) && !healthy c))).isEmpty
       then none
       else some (S.filter (fun c => !(decide (exclude ≠ some c) && !healthy c)))) ∧
    (∀ r : RoomId, r ≠ room_id →
      assocFind (st.broadcast_to_room room_id message exclude healthy).2.room_subscriptions r
        = assocFind st.room_subscriptions r) ∧
    (st.broadcast_to_room room_id message exclude healthy).2.active_connections
      = st.active_connections ∧
    (st.broadcast_to_room room_id message exclude healthy).2.message_counts
      = st.message_counts := by
  have hfst := broadcast_fst st room_id S message exclude healthy hS
  have hsnd := broadcast_snd st room_id S message exclude healthy hS
  refine ⟨?_, ?_, ?_, ?_, ?_⟩
  · intro c
    rw [hfst]
    simp only [List.mem_map, List.mem_filter, Prod.mk.injEq]
    constructor
    · rintro ⟨a, ⟨⟨haS, hax⟩, hah⟩, rfl, -⟩
      exact ⟨haS, of_decide_eq_true hax, hah⟩
    · rintro ⟨h1, h2, h3⟩
      exact ⟨c, ⟨⟨h1, decide_eq_true h2⟩, h3⟩, rfl, trivial⟩
  · rw [hsnd]
    by_cases hdead :
        ((S.filter (fun c => exclude ≠ some c)).filter (fun c => !healthy c)).isEmpty
    · rw [if_pos hdead, hS]
      have hz : ∀ c ∈ S, ¬(((!healthy c) && decide (exclude ≠ some c)) = true) := by
        apply List.filter_eq_nil_iff.mp
        rw [← List.filter_filter]
        exact List.isEmpty_iff.mp hdead
      have hsurv : S.filter (fun c => !(decide (exclude ≠ some c) && !healthy c)) = S := by
        apply List.filter_eq_self.mpr
        intro c hc
        have := hz c hc
        cases hh : healthy c <;> cases hp : (exclude ≠ some c : Bool) <;> simp_all
      rw [hsurv, if_neg (by simpa [List.isEmpty_iff] using hne)]
    · rw [if_neg hdead]
      by_cases hsub :
          (S.filter (fun c => !(decide (exclude ≠ some c) && !healthy c))).isEmpty
      · rw [if_pos hsub, if_pos hsub]
        exact assocFind_assocErase_self _ _
      · rw [if_neg hsub, if_neg hsub]
        exact assocFind_assocSet_self _ _ _
  · intro r hr
    rw [hsnd]
    by_cases hdead :
        ((S.filter (fun c => exclude ≠ some c)).filter (fun c => !healthy c)).isEmpty
    · rw [if_pos hdead]
    · rw [if_neg hdead]
      by_cases hsub :
          (S.filter (fun c => !(decide (exclude ≠ some c) && !healthy c))).isEmpty
      · rw [if_pos hsub]
        exact assocFind_assocErase_ne _ _ _ hr
      · rw [if_neg hsub]
        exact assocFind_assocSet_ne _ _ _ _ hr
  · rw [hsnd]
    split
    · rfl
    · split <;> rfl
  · rw [hsnd]
    split
    · rfl
    · split <;> rfl

/-! The fixed-window rate limiter (`check_message_rate`), claim C7. -/

/-- Runs a sequence of `check_message_rate` calls for one user, threading the
registry state; the list holds the `time.monotonic()` reading of each call. -/
def runRateChecks (u : UserId) (maxpm : Nat) : CMState → List Rat → List Bool × CMState
  | st, [] => ([], st)
  | st, t :: ts =>
    let r := st.check_message_rate u maxpm t
    let rest := runRateChecks u maxpm r.2 ts
    (r.1 :: rest.1, rest.2)

/-- One in-window check below the limit: allowed, count goes up by one and the
window start is kept. -/
theorem check_rate_step (st : CMState) (u : UserId) (maxpm : Nat) (t0 t : Rat) (k : Nat)
    (hmem : assocFind st.message_counts u = some (t0, k)) (hk : k < maxpm)
    (ht : t - t0 < 60) :
    st.check_message_rate u maxpm t
      = (true, { st with message_counts := assocSet st.message_counts u (t0, k + 1) }) := by
  simp only [CMState.check_message_rate, hmem, Option.getD_some]
  rw [if_neg (not_le.mpr ht), if_neg (not_le.mpr hk)]

/-- The first check of a user with no limiter entry: allowed, window opens now. -/
theorem check_rate_fresh (st : CMState) (u : UserId) (maxpm : Nat) (t : Rat)
    (hnone : assocFind st.message_counts u = none) (hmax : 1 ≤ maxpm) :
    st.check_message_rate u maxpm t
      = (true, { st with message_counts := assocSet st.message_counts u (t, 1) }) := by
  simp only [CMState.check_message_rate, hnone, Option.getD_none]
  rw [if_neg (by rw [sub_self]; norm_num), if_neg (by omega)]

/-- An in-window check at the limit: rejected, state untouched. -/
theorem check_rate_at_limit (st : CMState) (u : UserId) (maxpm : Nat) (t0 t : Rat) (k : Nat)
    (hmem : assocFind st.message_counts u = some (t0, k)) (hk : maxpm ≤ k)
    (ht : t - t0 < 60) :
    st.check_message_rate u maxpm t = (false, st) := by
  simp only [CMState.check_message_rate, hmem, Option.getD_some]
  rw [if_neg (not_le.mpr ht), if_pos hk]

/-- A check once 60 seconds have elapsed since the window started: allowed,
the window restarts. -/
theorem check_rate_expired (st : CMState) (u : UserId) (maxpm : Nat) (t0 t : Rat) (k : Nat)
    (hmem : assocFind st.message_counts u = some (t0, k)) (ht : (60 : Rat) ≤ t - t0) :
    st.check_message_rate u maxpm t
      = (true, { st with message_counts := assocSet st.message_counts u (t, 1) }) := by
  simp only [CMState.check_message_rate, hmem, Option.getD_some]
  rw [if_pos ht]

/-- Running in-window checks from count `k`: all allowed while the total stays
within the limit, and the count advances by the number of checks. -/
theorem runRateChecks_in_window (u : UserId) (maxpm : Nat) (t0 : Rat) :
    ∀ (ts : List Rat) (st : CMState) (k : Nat),
      assocFind st.message_counts u = some (t0, k) →
      k + ts.length ≤ maxpm →
      (∀ t ∈ ts, t - t0 < 60) →
      (runRateChecks u maxpm st ts).1 = List.replicate ts.length true ∧
      assocFind (runRateChecks u maxpm st ts).2.message_counts u = some (t0, k + ts.length)
  | [], st, k, hmem, _, _ => by
      simpa [runRateChecks] using hmem
  | t :: ts, st, k, hmem, hlen, hts => by
      have hstep := check_rate_step st u maxpm t0 t k hmem (by simp at hlen; omega)
        (hts t (by simp))
      have hmem' : assocFind
          ({ st with message_counts := assocSet st.message_counts u (t0, k + 1) } :
            CMState).message_counts u = some (t0, k + 1) := by
        simpa using assocFind_assocSet_self st.message_counts u (t0, k + 1)
      have ih := runRateChecks_in_window u maxpm t0 ts _ (k + 1) hmem'
        (by simp at hlen; omega) (fun t' ht' => hts t' (by simp [ht']))
      simp only [runRateChecks, hstep, ih.1, ih.2, List.replicate_succ,
        List.length_cons]
      refine ⟨trivial, ?_⟩
      have harith : k + 1 + ts.length = k + (ts.length + 1) := by omega
      rw [harith]

/-- C7: starting fresh, a user's first `max_per_window` rate checks within one
60-second window all pass; the next check in the same window fails and leaves
the limiter state unchanged; a check made once 60 seconds have elapsed since
the window started passes again and opens a fresh window; and neither
`disconnect` nor `connect` touches the limiter's per-user state, so the limit
survives a disconnect/reconnect within the window. -/
theorem rate_limit_window (st0 : CMState) (u : UserId) (maxpm : Nat) (t0 : Rat)
    (ts : List Rat) (tnext trenew : Rat)
    (hfresh : assocFind st0.message_counts u = none)
    (hlen : ts.length + 1 = maxpm)
    (hts : ∀ t ∈ ts, t - t0 < 60) (hnext : tnext - t0 < 60)
    (hrenew : (60 : Rat) ≤ trenew - t0) :
    (runRateChecks u maxpm st0 (t0 :: ts)).1 = List.replicate maxpm true ∧
    ((runRateChecks u maxpm st0 (t0 :: ts)).2.check_message_rate u maxpm tnext).1 = false ∧
    ((runRateChecks u maxpm st0 (t0 :: ts)).2.check_message_rate u maxpm tnext).2
      = (runRateChecks u maxpm st0 (t0 :: ts)).2 ∧
    ((((runRateChecks u maxpm st0 (t0 :: ts)).2.check_message_rate u maxpm tnext).2.check_message_rate
        u maxpm trenew).1 = true ∧
     assocFind ((((runRateChecks u maxpm st0 (t0 :: ts)).2.check_message_rate u maxpm
        tnext).2.check_message_rate u maxpm trenew).2).message_counts u
      = some (trenew, 1)) ∧
    (∀ (st : CMState) (ws : Conn), (st.disconnect ws).2.message_counts = st.message_counts) ∧
    (∀ (st : CMState) (ws : Conn) (uid : UserId),
      (st.connect ws uid).message_counts = st.message_counts) := by
  have hmax : 1 ≤ maxpm := by omega
  have hstep0 := check_rate_fresh st0 u maxpm t0 hfresh hmax
  have hmem1 : assocFind
      ({ st0 with message_counts := assocSet st0.message_counts u (t0, 1) } :
        CMState).message_counts u = some (t0, 1) := by
    simpa using assocFind_assocSet_self st0.message_counts u (t0, 1)
  have hrun := runRateChecks_in_window u maxpm t0 ts _ 1 hmem1 (by omega) hts
  have hall : (runRateChecks u maxpm st0 (t0 :: ts)).1 = List.replicate maxpm true := by
    simp only [runRateChecks, hstep0]
    rw [hrun.1, ← hlen, List.replicate_succ]
  have hcount : assocFind (runRateChecks u maxpm st0 (t0 :: ts)).2.message_counts u
      = some (t0, maxpm) := by
    simp only [runRateChecks, hstep0]
    rw [hrun.2]
    congr 2
    omega
  have hrej := check_rate_at_limit (runRateChecks u maxpm st0 (t0 :: ts)).2 u maxpm t0
    tnext maxpm hcount le_rfl hnext
  have hst3 : ((runRateChecks u maxpm st0 (t0 :: ts)).2.check_message_rate u maxpm tnext).2
      = (runRateChecks u maxpm st0 (t0 :: ts)).2 := by
    rw [hrej]
  have hren := check_rate_expired
    ((runRateChecks u maxpm st0 (t0 :: ts)).2.check_message_rate u maxpm tnext).2
    u maxpm t0 trenew maxpm (by rw [hst3]; exact hcount) hrenew
  refine ⟨hall, by rw [hrej], hst3, ⟨by rw [hren], ?_⟩, ?_, ?_⟩
  · rw [hren]
    simpa using assocFind_assocSet_self _ u (trenew, 1)
  · intro st ws
    rfl
  · intro st ws uid
    rfl

/-- C7 witness: limit 2, fresh user 5, checks at monotonic times 0 and 30
pass, a third at 59 is rejected, and one at 61 passes again. -/
theorem rate_limit_window_witness :
    (runRateChecks 5 2 ⟨[], [], []⟩ [(0 : Rat), 30]).1 = [true, true] ∧
    ((runRateChecks 5 2 ⟨[], [], []⟩ [(0 : Rat), 30]).2.check_message_rate 5 2 59).1 = false ∧
    ((((runRateChecks 5 2 ⟨[], [], []⟩ [(0 : Rat), 30]).2.check_message_rate 5 2
        59).2.check_message_rate 5 2 61).1 = true) := by
  have h := rate_limit_window ⟨[], [], []⟩ 5 2 0 [30] 59 61 rfl (by decide)
    (by intro t ht; simp at ht; rw [ht]; norm_num) (by norm_num) (by norm_num)
  exact ⟨by simpa using h.1, h.2.1, h.2.2.2.1.1⟩

/-! Claim C8: subscribing at the per-connection cap. -/

/-- C8: for a connection already holding the maximum number of room
subscriptions, `subscribe_to_room` on a room it is not subscribed to returns
false and leaves the whole registry state unchanged, while `subscribe_to_room`
on a room it is already subscribed to returns true as a no-op. -/
theorem subscribe_to_room_at_cap (st : CMState) (ws : Conn) (room_id : RoomId)
    (hcap : st.subscriptionCount ws = MAX_SUBSCRIPTIONS_PER_CONNECTION) :
    (st.wsSubscribed ws room_id = false →
      st.subscribe_to_room ws room_id = (false, st)) ∧
    (st.wsSubscribed ws room_id = true →
      st.subscribe_to_room ws room_id = (true, st)) := by
  constructor
  · intro h
    rw [CMState.subscribe_to_room, if_neg (by rw [h]; exact Bool.false_ne_true),
      if_pos (by rw [hcap])]
  · intro h
    rw [CMState.subscribe_to_room, if_pos h]

/-- C8 witness: connection 0 subscribed to rooms 0..49 (the cap of 50):
subscribing to fresh room 50 fails without mutation, re-subscribing to
room 7 succeeds as a no-op. -/
theorem subscribe_to_room_at_cap_witness :
    (⟨[(0, 10)], (List.range 50).map (fun i => (i, [0])), []⟩ :
        CMState).subscribe_to_room 0 50
      = (false, ⟨[(0, 10)], (List.range 50).map (fun i => (i, [0])), []⟩) ∧
    (⟨[(0, 10)], (List.range 50).map (fun i => (i, [0])), []⟩ :
        CMState).subscribe_to_room 0 7
      = (true, ⟨[(0, 10)], (List.range 50).map (fun i => (i, [0])), []⟩) := by
  constructor
  · exact (subscribe_to_room_at_cap _ 0 50 (by decide)).1 (by decide)
  · exact (subscribe_to_room_at_cap _ 0 7 (by decide)).2 (by decide)

/-- C6 witness: room 7 has subscribers 1, 2, 3; connection 2's send fails.
The broadcast delivers to 1 and 3 and removes exactly 2 from the room's set. -/
theorem broadcast_to_room_partial_failure_witness :
    assocFind ((⟨[(1, 10), (2, 20), (3, 30)], [(7, [1, 2, 3])], []⟩ :
        CMState).broadcast_to_room 7 "hello" none (fun c => c ≠ 2)).2.room_subscriptions 7
      = some [1, 3] ∧
    ((1, "hello") ∈ ((⟨[(1, 10), (2, 20), (3, 30)], [(7, [1, 2, 3])], []⟩ :
        CMState).broadcast_to_room 7 "hello" none (fun c => c ≠ 2)).1 ∧
     (2, "hello") ∉ ((⟨[(1, 10), (2, 20), (3, 30)], [(7, [1, 2, 3])], []⟩ :
        CMState).broadcast_to_room 7 "hello" none (fun c => c ≠ 2)).1) := by
  have h := broadcast_to_room_partial_failure (α := String)
    ⟨[(1, 10), (2, 20), (3, 30)], [(7, [1, 2, 3])], []⟩ 7 [1, 2, 3] "hello" none
    (fun c => c ≠ 2) rfl (by decide)
  refine ⟨?_, ?_, ?_⟩
  · rw [h.2.1]
    decide
  · exact (h.1 1).mpr (by decide)
  · intro hmem
    have := (h.1 2).mp hmem
    simp at this

/-! Embedding of the protocol dispatcher, `app/websocket/handlers.py`.

Outbound I/O is modelled as an effect trace: each handler returns the list of
effects it performed, in order, together with the updated registry state.
Database rows live in a `Db` snapshot; the handlers record their queries and
writes as effects (the durable store's own mutation is irrelevant to the
claims settled here). -/

/-- Server → client events (`app/websocket/schemas.py`). -/
inductive WSEvent where
  | subscribed (room_id : RoomId) (online_users : List (UserId × String))
  | unsubscribed (room_id : RoomId)
  | new_message (id : Nat) (room_id : RoomId) (user_id : UserId) (username : String)
      (content : String) (created_at : Nat)
  | user_joined (room_id : RoomId) (user_id : UserId) (username : String)
  | user_left (room_id : RoomId) (user_id : UserId) (username : String)
  | typing_indicator (room_id : RoomId) (user_id : UserId) (username : String)
  | error (message : String)
deriving Repr, DecidableEq

/-- One observable step of a handler, in chronological order. -/
inductive Effect where
  | rate_check (user_id : UserId) (allowed : Bool)
  | db_get_room (room_id : RoomId)
  | db_get_membership (user_id : UserId) (room_id : RoomId)
  | db_insert_message (room_id : RoomId) (user_id : UserId) (content : String)
  | db_mark_read (user_id : UserId) (room_id : RoomId)
  | db_select_other_members (room_id : RoomId) (user_id : UserId)
  | db_get_room_users (room_id : RoomId)
  | cache_reset (user_id : UserId) (room_id : RoomId)
  | cache_incr (user_id : UserId) (room_id : RoomId)
  | send (conn : Conn) (event : WSEvent)
deriving Repr, DecidableEq

/-- A `user_room` row: membership of a user in a room, with the optional
`last_read_at` marker (timestamps as naturals). -/
structure Membership where
  user_id : UserId
  room_id : RoomId
  last_read_at : Option Nat
deriving Repr, DecidableEq

/-- A `messages` row. -/
structure Msg where
  id : Nat
  room_id : RoomId
  user_id : UserId
  content : String
  created_at : Nat
deriving Repr, DecidableEq

/-- A snapshot of the durable store. -/
structure Db where
  rooms : List (RoomId × String)
  users : List (UserId × String)
  memberships : List Membership
  messages : List Msg
deriving Repr, DecidableEq

/-- `crud/user_room.py get_user_room`: first membership row for
(user, room). -/
def Db.get_user_room (db : Db) (user_id : UserId) (room_id : RoomId) :
    Option Membership :=
  db.memberships.find? (fun m => m.user_id == user_id && m.room_id == room_id)

/-- Membership test used by the handlers' authorization checks. -/
def Db.isMember (db : Db) (user_id : UserId) (room_id : RoomId) : Bool :=
  (db.get_user_room user_id room_id).isSome

/-- The serial primary key the insert would assign. -/
def Db.nextMessageId (db : Db) : Nat :=
  (db.messages.map (·.id)).foldr max 0 + 1

/-- The `SELECT UserRoom WHERE room_id == .. AND user_id != sender` rows of
`handle_send_message`, projected to user ids. -/
def Db.otherMembers (db : Db) (sender : UserId) (room_id : RoomId) : List UserId :=
  (db.memberships.filter (fun m => m.room_id == room_id && m.user_id != sender)).map
    (·.user_id)

/-- An inbound client frame before validation: the raw `action` discriminator
plus the optional payload fields the four actions use. -/
structure RawFrame where
  action : String
  room_id : Option RoomId
  content : Option String
deriving Repr, DecidableEq

/-- Turns broadcast deliveries into send effects. -/
def sendsOf (deliveries : List (Conn × WSEvent)) : List Effect :=
  deliveries.map (fun p => .send p.1 p.2)

/-- `handle_unsubscribe` in `handlers.py`: no DB access; unsubscribes, sends
the confirmation, then broadcasts `user_left` (sender not excluded). -/
def handle_unsubscribe (st : CMState) (ws : Conn) (user_id : UserId)
    (username : String) (frame : RawFrame) (healthy : Conn → Bool) :
    List Effect × CMState :=
  match frame.room_id with
  | none => ([.send ws (.error "Invalid unsubscribe message format")], st)
  | some room_id =>
    let st1 := st.unsubscribe_from_room ws room_id
    let b := st1.broadcast_to_room room_id
      (WSEvent.user_left room_id user_id username) none healthy
    (.send ws (.unsubscribed room_id) :: sendsOf b.1, b.2)

/-- `handle_user_typing` in `handlers.py`: validates against the in-memory
subscription table only (`manager.room_subscriptions.get(room_id, set())`),
then broadcasts `typing_indicator` excluding the sender. -/
def handle_user_typing (st : CMState) (ws : Conn) (user_id : UserId)
    (username : String) (frame : RawFrame) (healthy : Conn → Bool) :
    List Effect × CMState :=
  match frame.room_id with
  | none => ([.send ws (.error "Invalid typing message format")], st)
  | some room_id =>
    if !((assocFind st.room_subscriptions room_id).getD []).contains ws then
      ([.send ws (.error "Not subscribed to this room")], st)
    else
      let b := st.broadcast_to_room room_id
        (WSEvent.typing_indicator room_id user_id username) (some ws) healthy
      (sendsOf b.1, b.2)

/-- `handle_subscribe` in `handlers.py`: validates the room and the caller's
membership against the durable store, registers the subscription — the
boolean returned by `subscribe_to_room` is discarded, exactly as in the
source — then replies `subscribed` with the online users and broadcasts
`user_joined` to the rest of the room. -/
def handle_subscribe (db : Db) (st : CMState) (ws : Conn) (user_id : UserId)
    (username : String) (frame : RawFrame) (healthy : Conn → Bool) :
    List Effect × CMState :=
  match frame.room_id with
  | none => ([.send ws (.error "Invalid subscribe message format")], st)
  | some room_id =>
    if (assocFind db.rooms room_id).isNone then
      ([.db_get_room room_id, .send ws (.error "Room not found")], st)
    else if !db.isMember user_id room_id then
      ([.db_get_room room_id, .db_get_membership user_id room_id,
        .send ws (.error "Not a member of this room")], st)
    else
      let st1 := (st.subscribe_to_room ws room_id).2
      let online := st1.get_room_users room_id db.users
      let b := st1.broadcast_to_room room_id
        (WSEvent.user_joined room_id user_id username) (some ws) healthy
      ([.db_get_room room_id, .db_get_membership user_id room_id,
        .db_get_room_users room_id, .send ws (.subscribed room_id online)]
        ++ sendsOf b.1, b.2)

/-- `handle_send_message` in `handlers.py` (rate limiting already done by the
endpoint loop): validates the frame, checks the room and membership against
the durable store, persists the message, updates the sender's read marker,
resets the sender's cached unread count, increments every other member's,
and only then broadcasts `new_message` to the whole room (no exclusion). -/
def handle_send_message (db : Db) (st : CMState) (ws : Conn) (user_id : UserId)
    (username : String) (frame : RawFrame) (created_at : Nat)
    (healthy : Conn → Bool) : List Effect × CMState :=
  match frame.room_id, frame.content with
  | some room_id, some content =>
    if !(1 ≤ content.length && content.length ≤ 1000) then
      ([.send ws (.error "Invalid message format")], st)
    else if (assocFind db.rooms room_id).isNone then
      ([.db_get_room room_id, .send ws (.error "Room not found")], st)
    else if !db.isMember user_id room_id then
      ([.db_get_room room_id, .db_get_membership user_id room_id,
        .send ws (.error "Not a member of this room")], st)
    else
      let b := st.broadcast_to_room room_id
        (WSEvent.new_message db.nextMessageId room_id user_id username content
          created_at) none healthy
      ([.db_get_room room_id, .db_get_membership user_id room_id,
        .db_insert_message room_id user_id content,
        .db_mark_read user_id room_id,
        .cache_reset user_id room_id,
        .db_select_other_members room_id user_id]
        ++ (db.otherMembers user_id room_id).map (fun u2 => .cache_incr u2 room_id)
        ++ sendsOf b.1, b.2)
  | _, _ => ([.send ws (.error "Invalid message format")], st)

/-- The action router of `websocket_endpoint` in `handlers.py`: dispatches on
the raw `action` string; for `send_message` the per-user rate limit is
checked before any database session is opened; unknown actions produce a
local error event. `now` is the monotonic-clock reading, `created_at` the
timestamp the store would assign to an inserted message. -/
def dispatch (db : Db) (st : CMState) (ws : Conn) (user_id : UserId)
    (username : String) (frame : RawFrame) (now : Rat) (created_at : Nat)
    (healthy : Conn → Bool) : List Effect × CMState :=
  if frame.action = "unsubscribe" then
    handle_unsubscribe st ws user_id username frame healthy
  else if frame.action = "user_typing" then
    handle_user_typing st ws user_id username frame healthy
  else if frame.action = "subscribe" ∨ frame.action = "send_message" then
    if frame.action = "send_message" then
      let rc := st.check_message_rate user_id 30 now
      if rc.1 then
        let hs := handle_send_message db rc.2 ws user_id username frame created_at healthy
        (.rate_check user_id true :: hs.1, hs.2)
      else
        ([.rate_check user_id false,
          .send ws (.error "Rate limit exceeded. Please slow down.")], rc.2)
    else
      handle_subscribe db st ws user_id username frame healthy
  else
    ([.send ws (.error ("Unknown action: " ++ frame.action))], st)

/-! Dispatch-reduction helpers. -/

/-- Helper: routing of an inbound `user_typing` frame. -/
theorem dispatch_user_typing (db : Db) (st : CMState) (ws : Conn) (user_id : UserId)
    (username : String) (rid : Option RoomId) (c : Option String) (now : Rat)
    (created_at : Nat) (healthy : Conn → Bool) :
    dispatch db st ws user_id username ⟨"user_typing", rid, c⟩ now created_at healthy
      = handle_user_typing st ws user_id username ⟨"user_typing", rid, c⟩ healthy := by
  simp only [dispatch]
  rw [if_neg (by decide), if_pos trivial]

/-- Helper: routing of an inbound `send_message` frame, with the rate limit
checked before anything else. -/
theorem dispatch_send_message (db : Db) (st : CMState) (ws : Conn) (user_id : UserId)
    (username : String) (rid : Option RoomId) (c : Option String) (now : Rat)
    (created_at : Nat) (healthy : Conn → Bool) :
    dispatch db st ws user_id username ⟨"send_message", rid, c⟩ now created_at healthy
      = (if (st.check_message_rate user_id 30 now).1 then
           ((Effect.rate_check user_id true ::
              (handle_send_message db (st.check_message_rate user_id 30 now).2 ws user_id
                username ⟨"send_message", rid, c⟩ created_at healthy).1),
            (handle_send_message db (st.check_message_rate user_id 30 now).2 ws user_id
              username ⟨"send_message", rid, c⟩ created_at healthy).2)
         else
           ([.rate_check user_id false,
             .send ws (.error "Rate limit exceeded. Please slow down.")],
            (st.check_message_rate user_id 30 now).2)) := by
  simp only [dispatch]
  rw [if_neg (by decide), if_neg (by decide), if_pos (Or.inr trivial), if_pos trivial]

/-! Claim C3: the typing path. -/

/-- C3 counterexample: connection 1 is subscribed to room 7 and sends the
frame the spec gives, `{"action":"typing","room_id":7}`. The dispatcher only
routes the action string `user_typing`, so the frame falls through to the
unknown-action branch: the sender gets a local error and nothing is
broadcast. -/
theorem typing_action_counterexample :
    dispatch ⟨[], [], [], []⟩ ⟨[(1, 10), (2, 20)], [(7, [1, 2])], []⟩ 1 10 "alice"
        ⟨"typing", some 7, none⟩ 0 0 (fun _ => true)
      = ([.send 1 (.error "Unknown action: typing")],
         ⟨[(1, 10), (2, 20)], [(7, [1, 2])], []⟩) := by
  decide

/-- C3 (amended: the inbound action discriminator is `user_typing`, not
`typing`): for a connection subscribed to the room, the frame is validated
against the in-memory subscription table only and `typing_indicator` is
broadcast to every other healthy subscriber with the sender excluded; a
connection not subscribed gets a local error event; and in all cases the
handler performs sends only — no database, cache, or rate-limiter effect. -/
theorem user_typing_dispatch (db : Db) (st : CMState) (ws : Conn) (user_id : UserId)
    (username : String) (room_id : RoomId) (S : List Conn) (healthy : Conn → Bool)
    (now : Rat) (created_at : Nat)
    (hS : assocFind st.room_subscriptions room_id = some S) :
    (S.contains ws = true →
      (dispatch db st ws user_id username ⟨"user_typing", some room_id, none⟩ now
          created_at healthy).1
        = ((S.filter (fun c => ws ≠ c)).filter (fun c => healthy c)).map
            (fun c => Effect.send c (.typing_indicator room_id user_id username))) ∧
    (S.contains ws = false →
      dispatch db st ws user_id username ⟨"user_typing", some room_id, none⟩ now
          created_at healthy
        = ([.send ws (.error "Not subscribed to this room")], st)) ∧
    (∀ e ∈ (dispatch db st ws user_id username ⟨"user_typing", some room_id, none⟩ now
        created_at healthy).1, ∃ c ev, e = Effect.send c ev) := by
  rw [dispatch_user_typing]
  have hfe : S.filter (fun c => (some ws : Option Conn) ≠ some c)
      = S.filter (fun c => ws ≠ c) := by
    apply List.filter_congr
    intro c _
    simp
  have hsub : S.contains ws = true →
      (handle_user_typing st ws user_id username ⟨"user_typing", some room_id, none⟩
        healthy).1
      = ((S.filter (fun c => ws ≠ c)).filter (fun c => healthy c)).map
          (fun c => Effect.send c (.typing_indicator room_id user_id username)) := by
    intro hws
    simp only [handle_user_typing, hS, Option.getD_some, hws, Bool.not_true,
      Bool.false_eq_true, if_false]
    rw [broadcast_fst st room_id S _ (some ws) healthy hS, hfe]
    simp [sendsOf, List.map_map]
  have hnosub : S.contains ws = false →
      handle_user_typing st ws user_id username ⟨"user_typing", some room_id, none⟩
        healthy
      = ([.send ws (.error "Not subscribed to this room")], st) := by
    intro hws
    simp only [handle_user_typing, hS, Option.getD_some, hws, Bool.not_false, if_true]
  refine ⟨hsub, hnosub, ?_⟩
  intro e he
  cases hws : S.contains ws
  · rw [hnosub hws] at he
    simp only [List.mem_singleton] at he
    exact ⟨ws, .error "Not subscribed to this room", he⟩
  · rw [hsub hws] at he
    simp only [List.mem_map] at he
    obtain ⟨c, -, rfl⟩ := he
    exact ⟨c, .typing_indicator room_id user_id username, rfl⟩

/-- C3 witness: in a registry where connections 1 and 2 are subscribed to
room 7, connection 1's `user_typing` is broadcast to connection 2 only, and
unsubscribed connection 3 gets a local error. -/
theorem user_typing_dispatch_witness :
    (dispatch ⟨[], [], [], []⟩ ⟨[(1, 10), (2, 20)], [(7, [1, 2])], []⟩ 1 10 "alice"
        ⟨"user_typing", some 7, none⟩ 0 0 (fun _ => true)).1
      = [.send 2 (.typing_indicator 7 10 "alice")] ∧
    dispatch ⟨[], [], [], []⟩ ⟨[(1, 10), (2, 20)], [(7, [1, 2])], []⟩ 3 30 "carol"
        ⟨"user_typing", some 7, none⟩ 0 0 (fun _ => true)
      = ([.send 3 (.error "Not subscribed to this room")],
         ⟨[(1, 10), (2, 20)], [(7, [1, 2])], []⟩) := by
  have h1 := user_typing_dispatch ⟨[], [], [], []⟩
    ⟨[(1, 10), (2, 20)], [(7, [1, 2])], []⟩ 1 10 "alice" 7 [1, 2] (fun _ => true) 0 0 rfl
  have h2 := user_typing_dispatch ⟨[], [], [], []⟩
    ⟨[(1, 10), (2, 20)], [(7, [1, 2])], []⟩ 3 30 "carol" 7 [1, 2] (fun _ => true) 0 0 rfl
  constructor
  · rw [h1.1 (by decide)]
    decide
  · exact h2.2.1 (by decide)

/-! Claim C10: `handle_subscribe` discards the registry's refusal. -/

/-- Registry state for C10: connection 0 (user 1) already subscribed to the
50 rooms 0..49; connection 9 (user 2) subscribed to room 51. -/
def stCapC10 : CMState :=
  ⟨[(0, 1), (9, 2)], (List.range 50).map (fun i => (i, [0])) ++ [(51, [9])], []⟩

/-- Durable store for C10: room 51 exists and users 1 and 2 are members. -/
def dbC10 : Db :=
  ⟨[(51, "general")], [(1, "alice"), (2, "bob")], [⟨1, 51, none⟩, ⟨2, 51, none⟩], []⟩

/-- C10: a connection already at the 50-room cap sends a valid subscribe for
room 51, of which its user is a member. The registry refuses the
subscription (`subscribe_to_room` returns false and the connection is not in
the room's set), yet the dispatcher — which discards that boolean — still
replies `subscribed` with the online users and broadcasts `user_joined` to
the room. -/
theorem subscribe_cap_refusal_still_broadcasts :
    dispatch dbC10 stCapC10 0 1 "alice" ⟨"subscribe", some 51, none⟩ 0 0 (fun _ => true)
      = ([.db_get_room 51, .db_get_membership 1 51, .db_get_room_users 51,
          .send 0 (.subscribed 51 [(2, "bob")]), .send 9 (.user_joined 51 1 "alice")],
         stCapC10) ∧
    (stCapC10.subscribe_to_room 0 51).1 = false ∧
    stCapC10.wsSubscribed 0 51 = false := by
  decide

/-! Claim C2: the send_message pipeline. -/

/-- Recognizes the two unread-cache update effects. -/
def isCacheUpdate : Effect → Bool
  | .cache_reset _ _ => true
  | .cache_incr _ _ => true
  | _ => false

/-- Recognizes a delivery of a `new_message` event. -/
def isNewMessageSend : Effect → Bool
  | .send _ (.new_message _ _ _ _ _ _) => true
  | _ => false

/-- True when some cache update occurs strictly before some `new_message`
delivery in the trace — the order claim C2 forbids. -/
def cacheUpdateBeforeNewMessageSend : List Effect → Bool
  | [] => false
  | e :: rest =>
    (isCacheUpdate e && rest.any isNewMessageSend) ||
      cacheUpdateBeforeNewMessageSend rest

/-- C2 counterexample: a fully successful send (member sender, under the
rate limit, healthy sockets). The claim puts the `new_message` broadcast
before the cache updates, but in the trace the sender's cache reset and the
other member's increment both precede every `new_message` delivery. -/
theorem send_message_order_counterexample :
    cacheUpdateBeforeNewMessageSend
        (dispatch ⟨[(5, "general")], [(1, "alice"), (2, "bob")],
            [⟨1, 5, none⟩, ⟨2, 5, none⟩], []⟩
          ⟨[(1, 1), (2, 2)], [(5, [1, 2])], []⟩ 1 1 "alice"
          ⟨"send_message", some 5, some "hello"⟩ 0 100 (fun _ => true)).1 = true ∧
    ((dispatch ⟨[(5, "general")], [(1, "alice"), (2, "bob")],
            [⟨1, 5, none⟩, ⟨2, 5, none⟩], []⟩
          ⟨[(1, 1), (2, 2)], [(5, [1, 2])], []⟩ 1 1 "alice"
          ⟨"send_message", some 5, some "hello"⟩ 0 100 (fun _ => true)).1.any
        isNewMessageSend) = true := by
  have hrc := check_rate_fresh ⟨[(1, 1), (2, 2)], [(5, [1, 2])], []⟩ 1 30 0 rfl
    (by omega)
  rw [dispatch_send_message, hrc]
  decide

/-- C2 (amended: the cache updates happen after the persist and read-marker
steps but before the broadcast, not after it): for a valid frame from a
member, the pipeline is rate-check, room lookup, membership check, persist,
sender's read-marker update, sender's cache reset, other-members query, one
cache increment per other member (each exactly once), and finally the
`new_message` broadcast to the whole room with no exclusion; when the rate
limit is exceeded the frame is rejected with a local error and no storage
effect at all. -/
theorem send_message_pipeline (db : Db) (st : CMState) (ws : Conn) (user_id : UserId)
    (username : String) (room_id : RoomId) (content : String) (now : Rat)
    (created_at : Nat) (healthy : Conn → Bool)
    (hcontent : (1 ≤ content.length && content.length ≤ 1000) = true)
    (hroom : (assocFind db.rooms room_id).isNone = false)
    (hmem : db.isMember user_id room_id = true)
    (hnodup : (db.memberships.map (fun m => (m.user_id, m.room_id))).Nodup) :
    ((st.check_message_rate user_id 30 now).1 = true →
      dispatch db st ws user_id username ⟨"send_message", some room_id, some content⟩
          now created_at healthy
        = (Effect.rate_check user_id true ::
            ([.db_get_room room_id, .db_get_membership user_id room_id,
              .db_insert_message room_id user_id content,
              .db_mark_read user_id room_id,
              .cache_reset user_id room_id,
              .db_select_other_members room_id user_id]
             ++ (db.otherMembers user_id room_id).map
                  (fun u2 => Effect.cache_incr u2 room_id)
             ++ sendsOf ((st.check_message_rate user_id 30 now).2.broadcast_to_room
                  room_id (WSEvent.new_message db.nextMessageId room_id user_id
                    username content created_at) none healthy).1),
           ((st.check_message_rate user_id 30 now).2.broadcast_to_room room_id
             (WSEvent.new_message db.nextMessageId room_id user_id username content
               created_at) none healthy).2)) ∧
    ((st.check_message_rate user_id 30 now).1 = false →
      dispatch db st ws user_id username ⟨"send_message", some room_id, some content⟩
          now created_at healthy
        = ([.rate_check user_id false,
            .send ws (.error "Rate limit exceeded. Please slow down.")],
           (st.check_message_rate user_id 30 now).2)) ∧
    (db.otherMembers user_id room_id).Nodup ∧
    (∀ u2 : UserId, u2 ∈ db.otherMembers user_id room_id ↔
      ((∃ m ∈ db.memberships, m.user_id = u2 ∧ m.room_id = room_id) ∧ u2 ≠ user_id)) := by
  refine ⟨?_, ?_, ?_, ?_⟩
  · intro hrc
    rw [dispatch_send_message, if_pos hrc]
    simp only [handle_send_message, hcontent, Bool.not_true, Bool.false_eq_true,
      if_false, hroom, hmem, Bool.not_false, if_true]
  · intro hrc
    rw [dispatch_send_message, if_neg (by rw [hrc]; exact Bool.false_ne_true)]
  · have hmembers : db.memberships.Nodup := hnodup.of_map _
    apply List.Nodup.map_on ?_ (hmembers.filter _)
    intro m1 h1 m2 h2 heq
    have hp1 := List.of_mem_filter h1
    have hp2 := List.of_mem_filter h2
    simp only [Bool.and_eq_true, beq_iff_eq, bne_iff_ne] at hp1 hp2
    exact List.inj_on_of_nodup_map hnodup (List.mem_of_mem_filter h1)
      (List.mem_of_mem_filter h2) (by rw [heq, hp1.1, hp2.1])
  · intro u2
    simp only [Db.otherMembers, List.mem_map, List.mem_filter, Bool.and_eq_true,
      beq_iff_eq, bne_iff_ne]
    constructor
    · rintro ⟨m, ⟨hm, hr, hu⟩, rfl⟩
      exact ⟨⟨m, hm, rfl, hr⟩, hu⟩
    · rintro ⟨⟨m, hm, rfl, hr⟩, hu⟩
      exact ⟨m, ⟨hm, hr, hu⟩, rfl⟩

/-- C2 witness: user 1 (connection 1) sends "hello" to room 5 whose members
are users 1 and 2, both subscribed and healthy, starting from a fresh rate
window; the full effect trace and final state are computed. -/
theorem send_message_pipeline_witness :
    dispatch ⟨[(5, "general")], [(1, "alice"), (2, "bob")],
        [⟨1, 5, none⟩, ⟨2, 5, none⟩], []⟩
      ⟨[(1, 1), (2, 2)], [(5, [1, 2])], []⟩ 1 1 "alice"
      ⟨"send_message", some 5, some "hello"⟩ 0 100 (fun _ => true)
      = ([.rate_check 1 true, .db_get_room 5, .db_get_membership 1 5,
          .db_insert_message 5 1 "hello", .db_mark_read 1 5, .cache_reset 1 5,
          .db_select_other_members 5 1, .cache_incr 2 5,
          .send 1 (.new_message 1 5 1 "alice" "hello" 100),
          .send 2 (.new_message 1 5 1 "alice" "hello" 100)],
         ⟨[(1, 1), (2, 2)], [(5, [1, 2])], [(1, (0, 1))]⟩) := by
  have hrc := check_rate_fresh ⟨[(1, 1), (2, 2)], [(5, [1, 2])], []⟩ 1 30 0 rfl
    (by omega)
  have h := send_message_pipeline ⟨[(5, "general")], [(1, "alice"), (2, "bob")],
      [⟨1, 5, none⟩, ⟨2, 5, none⟩], []⟩
    ⟨[(1, 1), (2, 2)], [(5, [1, 2])], []⟩ 1 1 "alice" 5 "hello" 0 100 (fun _ => true)
    (by decide) (by decide) (by decide) (by decide)
  rw [h.1 (by rw [hrc]), hrc]
  decide

/-! Embedding of the unread-count cache, `app/services/cache_service.py` and
`app/crud/user_room.py get_unread_count` (claim C9).

The Redis hash per user is a `(room_id, count)` association list; the whole
cache is a `(user_id, hash)` association list, wrapped in `Option`: `none`
models `get_redis()` returning no client (cache unavailable). -/

/-- The whole Redis keyspace used by the cache: one hash per user. -/
abbrev RedisData := List (UserId × List (RoomId × Nat))

/-- `CACHE_TTL` in `cache_service.py`: 24 hours. -/
def CACHE_TTL : Nat := 86400

/-- One observable step of the cache service. -/
inductive CacheEffect where
  | redis_hgetall (user_id : UserId)
  | db_query_memberships (user_id : UserId)
  | db_get_user_room (user_id : UserId) (room_id : RoomId)
  | db_count_messages (user_id : UserId) (room_id : RoomId)
  | redis_hset (user_id : UserId) (data : List (RoomId × Nat))
  | redis_expire (user_id : UserId) (ttl : Nat)
deriving Repr, DecidableEq

/-- `crud/user_room.py get_unread_count`: messages with `created_at` strictly
greater than the user's `last_read_at`, or all of the room's messages when
the user has no membership row or never recorded a read. -/
def Db.get_unread_count (db : Db) (user_id : UserId) (room_id : RoomId) : Nat :=
  match db.get_user_room user_id room_id with
  | some m =>
    match m.last_read_at with
    | some t =>
        (db.messages.filter (fun msg => msg.room_id == room_id && t < msg.created_at)).length
    | none => (db.messages.filter (fun msg => msg.room_id == room_id)).length
  | none => (db.messages.filter (fun msg => msg.room_id == room_id)).length

/-- `hset(key, mapping=..)`: sets each mapped field, keeping other fields. -/
def hsetMapping (hash : List (RoomId × Nat)) (mapping : List (RoomId × Nat)) :
    List (RoomId × Nat) :=
  mapping.foldl (fun h p => assocSet h p.1 p.2) hash

/-- The user's durable per-room unread counts, in membership order: what
`_populate_from_db` computes. -/
def Db.durableCounts (db : Db) (user_id : UserId) : List (RoomId × Nat) :=
  (db.memberships.filter (fun m => m.user_id == user_id)).map
    (fun m => (m.room_id, db.get_unread_count user_id m.room_id))

/-- Result of a cache-service call: the returned counts, the effect trace in
order, and the Redis keyspace afterwards. -/
structure CacheResult where
  counts : List (RoomId × Nat)
  trace : List CacheEffect
  redis : Option RedisData
deriving Repr, DecidableEq

/-- `UnreadCountCache._populate_from_db`: one memberships query, then — for
each membership — a `get_user_room` lookup plus a count query; stores the
result in Redis (when a client was passed and the dict is non-empty) with a
`CACHE_TTL` expiry. -/
def populate_from_db (db : Db) (user_id : UserId) (redis : Option RedisData) :
    CacheResult :=
  let memberships := db.memberships.filter (fun m => m.user_id == user_id)
  let unread_counts := memberships.map
    (fun m => (m.room_id, db.get_unread_count user_id m.room_id))
  let qtrace := CacheEffect.db_query_memberships user_id ::
    memberships.flatMap (fun m =>
      [CacheEffect.db_get_user_room user_id m.room_id,
       CacheEffect.db_count_messages user_id m.room_id])
  match redis with
  | some data =>
    if unread_counts.isEmpty then ⟨unread_counts, qtrace, some data⟩
    else
      ⟨unread_counts,
       qtrace ++ [.redis_hset user_id unread_counts, .redis_expire user_id CACHE_TTL],
       some (assocSet data user_id
         (hsetMapping ((assocFind data user_id).getD []) unread_counts))⟩
  | none => ⟨unread_counts, qtrace, none⟩

/-- `UnreadCountCache.get_unread_counts`: cache read first; on a hit return
the cached hash; on a miss or with no Redis client, recompute from the
durable store (populating the cache only when a client exists). -/
def get_unread_counts (db : Db) (redis : Option RedisData) (user_id : UserId) :
    CacheResult :=
  match redis with
  | none => populate_from_db db user_id none
  | some data =>
    let cached := (assocFind data user_id).getD []
    if !cached.isEmpty then
      ⟨cached, [.redis_hgetall user_id], some data⟩
    else
      let p := populate_from_db db user_id (some data)
      ⟨p.counts, .redis_hgetall user_id :: p.trace, p.redis⟩

/-- Recognizes the unread-count aggregate query against the message store. -/
def isCountQuery : CacheEffect → Bool
  | .db_count_messages _ _ => true
  | _ => false

/-- C9 counterexample: user 1 is a member of rooms 5 and 6; with the cache
unavailable, `get_unread_counts` issues one count query per room — two for
two memberships — not the single per-user aggregate query the claim
describes (while still returning the correct durable values). -/
theorem unread_counts_query_counterexample :
    ((get_unread_counts
        ⟨[(5, "a"), (6, "b")], [(1, "alice")],
         [⟨1, 5, none⟩, ⟨1, 6, some 10⟩],
         [⟨1, 5, 2, "x", 5⟩, ⟨2, 6, 2, "y", 9⟩, ⟨3, 6, 2, "z", 11⟩]⟩
        none 1).trace.filter isCountQuery).length = 2 ∧
    ((⟨[(5, "a"), (6, "b")], [(1, "alice")],
       [⟨1, 5, none⟩, ⟨1, 6, some 10⟩],
       [⟨1, 5, 2, "x", 5⟩, ⟨2, 6, 2, "y", 9⟩, ⟨3, 6, 2, "z", 11⟩]⟩ :
         Db).memberships.filter (fun m => m.user_id == 1)).length = 2 ∧
    (get_unread_counts
        ⟨[(5, "a"), (6, "b")], [(1, "alice")],
         [⟨1, 5, none⟩, ⟨1, 6, some 10⟩],
         [⟨1, 5, 2, "x", 5⟩, ⟨2, 6, 2, "y", 9⟩, ⟨3, 6, 2, "z", 11⟩]⟩
        none 1).counts = [(5, 1), (6, 1)] := by
  decide

/-- Helper: `assocSet` on an absent key appends. -/
theorem assocSet_append_of_not_mem {α : Type} (l : List (Nat × α)) (k : Nat) (v : α)
    (h : ∀ p ∈ l, p.1 ≠ k) : assocSet l k v = l ++ [(k, v)] := by
  induction l with
  | nil => rfl
  | cons p t ih =>
    rw [assocSet, if_neg (h p (by simp)), ih (fun q hq => h q (by simp [hq]))]
    rfl

/-- Helper: folding `assocSet` over key-distinct fresh fields appends them. -/
theorem hsetMapping_disjoint : ∀ (mapping hash : List (RoomId × Nat)),
    (∀ p ∈ mapping, ∀ q ∈ hash, q.1 ≠ p.1) → (mapping.map Prod.fst).Nodup →
    hsetMapping hash mapping = hash ++ mapping
  | [], hash, _, _ => by simp [hsetMapping]
  | p :: rest, hash, hdisj, hnd => by
    simp only [hsetMapping, List.foldl_cons]
    rw [assocSet_append_of_not_mem hash p.1 p.2 (fun q hq => hdisj p (by simp) q hq)]
    have hnd' : (rest.map Prod.fst).Nodup := by
      simp only [List.map_cons, List.nodup_cons] at hnd
      exact hnd.2
    have hdisj' : ∀ q ∈ rest, ∀ r ∈ hash ++ [p], r.1 ≠ q.1 := by
      intro q hq r hr
      rcases List.mem_append.mp hr with hr | hr
      · exact hdisj q (by simp [hq]) r hr
      · simp only [List.mem_singleton] at hr
        subst hr
        simp only [List.map_cons, List.nodup_cons, List.mem_map] at hnd
        intro hbad
        exact hnd.1 ⟨q, hq, hbad.symm⟩
    have hrest := hsetMapping_disjoint rest (hash ++ [p]) hdisj' hnd'
    simpa [hsetMapping, List.append_assoc] using hrest

/-- Helper: populating an empty hash with a key-distinct mapping stores
exactly that mapping. -/
theorem hsetMapping_nil (mapping : List (RoomId × Nat))
    (hnd : (mapping.map Prod.fst).Nodup) : hsetMapping [] mapping = mapping := by
  simpa using hsetMapping_disjoint mapping [] (by simp) hnd

/-- Helper: the per-membership query block contains exactly one count query
per membership. -/
theorem count_queries_per_room (user_id : UserId) : ∀ (l : List Membership),
    ((l.flatMap (fun m =>
        [CacheEffect.db_get_user_room user_id m.room_id,
         CacheEffect.db_count_messages user_id m.room_id])).filter isCountQuery).length
      = l.length
  | [] => rfl
  | m :: rest => by
    rw [List.flatMap_cons, List.filter_append, List.length_append,
      count_queries_per_room user_id rest]
    simp [List.filter_cons, isCountQuery]
    omega

/-- Helper: the rooms of one user's membership rows are pairwise distinct
when the (user, room) pairs are. -/
theorem user_rooms_nodup (db : Db) (user_id : UserId)
    (hnodup : (db.memberships.map (fun m => (m.user_id, m.room_id))).Nodup) :
    ((db.durableCounts user_id).map Prod.fst).Nodup := by
  have hmembers : db.memberships.Nodup := hnodup.of_map _
  have : (db.durableCounts user_id).map Prod.fst
      = (db.memberships.filter (fun m => m.user_id == user_id)).map (·.room_id) := by
    simp [Db.durableCounts, List.map_map]
  rw [this]
  apply List.Nodup.map_on ?_ (hmembers.filter _)
  intro m1 h1 m2 h2 heq
  have hp1 := List.of_mem_filter h1
  have hp2 := List.of_mem_filter h2
  simp only [beq_iff_eq] at hp1 hp2
  exact List.inj_on_of_nodup_map hnodup (List.mem_of_mem_filter h1)
    (List.mem_of_mem_filter h2) (by rw [hp1, hp2, heq])

/-- C9 (amended: the recomputation issues one membership-row lookup and one
count query per room — a loop over the user's memberships — rather than a
single per-user aggregate query): on cache unavailability the counts are
recomputed from the durable store and nothing is written to the cache; each
returned count is the durable value (messages strictly newer than
`last_read_at`, or all messages when no read was recorded); and on a cache
miss with the cache reachable the recomputed counts are stored in the user's
hash with the bounded `CACHE_TTL` expiry before returning. -/
theorem get_unread_counts_amended (db : Db) (data : RedisData) (user_id : UserId)
    (hmiss : (assocFind data user_id).getD [] = [])
    (hnodup : (db.memberships.map (fun m => (m.user_id, m.room_id))).Nodup)
    (hne : db.memberships.filter (fun m => m.user_id == user_id) ≠ []) :
    (get_unread_counts db none user_id).counts = db.durableCounts user_id ∧
    (get_unread_counts db none user_id).redis = none ∧
    ((get_unread_counts db none user_id).trace.filter isCountQuery).length
      = (db.memberships.filter (fun m => m.user_id == user_id)).length ∧
    (∀ room_id count, (room_id, count) ∈ db.durableCounts user_id →
      count = db.get_unread_count user_id room_id) ∧
    (get_unread_counts db (some data) user_id).counts = db.durableCounts user_id ∧
    (get_unread_counts db (some data) user_id).redis
      = some (assocSet data user_id (db.durableCounts user_id)) ∧
    (get_unread_counts db (some data) user_id).trace
      = CacheEffect.redis_hgetall user_id :: CacheEffect.db_query_memberships user_id ::
        ((db.memberships.filter (fun m => m.user_id == user_id)).flatMap (fun m =>
          [CacheEffect.db_get_user_room user_id m.room_id,
           CacheEffect.db_count_messages user_id m.room_id])
         ++ [.redis_hset user_id (db.durableCounts user_id),
             .redis_expire user_id CACHE_TTL]) := by
  have hcounts_ne : ¬(((db.memberships.filter (fun m => m.user_id == user_id)).map
      (fun m => (m.room_id, db.get_unread_count user_id m.room_id))).isEmpty = true) := by
    simp only [List.isEmpty_iff, List.map_eq_nil_iff]
    exact hne
  have hpop : populate_from_db db user_id (some data)
      = ⟨db.durableCounts user_id,
         CacheEffect.db_query_memberships user_id ::
          ((db.memberships.filter (fun m => m.user_id == user_id)).flatMap (fun m =>
            [CacheEffect.db_get_user_room user_id m.room_id,
             CacheEffect.db_count_messages user_id m.room_id])
           ++ [.redis_hset user_id (db.durableCounts user_id),
               .redis_expire user_id CACHE_TTL]),
         some (assocSet data user_id (db.durableCounts user_id))⟩ := by
    have hdc : db.durableCounts user_id
        = (db.memberships.filter (fun m => m.user_id == user_id)).map
            (fun m => (m.room_id, db.get_unread_count user_id m.room_id)) := rfl
    simp only [populate_from_db, hmiss, ← hdc]
    rw [if_neg (by rw [hdc]; exact hcounts_ne),
      hsetMapping_nil _ (user_rooms_nodup db user_id hnodup), List.cons_append]
  have hread : get_unread_counts db (some data) user_id
      = ⟨(populate_from_db db user_id (some data)).counts,
         CacheEffect.redis_hgetall user_id :: (populate_from_db db user_id (some data)).trace,
         (populate_from_db db user_id (some data)).redis⟩ := by
    simp only [get_unread_counts, hmiss, List.isEmpty_nil, Bool.not_true,
      Bool.false_eq_true, if_false]
  refine ⟨rfl, rfl, ?_, ?_, ?_, ?_, ?_⟩
  · show ((CacheEffect.db_query_memberships user_id ::
      (db.memberships.filter (fun m => m.user_id == user_id)).flatMap (fun m =>
        [CacheEffect.db_get_user_room user_id m.room_id,
         CacheEffect.db_count_messages user_id m.room_id])).filter isCountQuery).length = _
    rw [List.filter_cons]
    simp only [isCountQuery, Bool.false_eq_true, if_false]
    exact count_queries_per_room user_id _
  · intro room_id count hmem
    simp only [Db.durableCounts, List.mem_map] at hmem
    obtain ⟨m, -, heq⟩ := hmem
    have h1 : m.room_id = room_id := congrArg Prod.fst heq
    have h2 : db.get_unread_count user_id m.room_id = count := congrArg Prod.snd heq
    rw [← h2, h1]
  · rw [hread, hpop]
  · rw [hread, hpop]
  · rw [hread, hpop]

/-- C9 witness: user 1 with memberships in rooms 5 (never read, one message)
and 6 (read at 10; messages at 9 and 11, so one unread): a miss against an
empty but reachable cache recomputes both counts with one count query per
room, and stores the hash with the 86400-second TTL. -/
theorem get_unread_counts_amended_witness :
    (get_unread_counts
        ⟨[(5, "a"), (6, "b")], [(1, "alice")],
         [⟨1, 5, none⟩, ⟨1, 6, some 10⟩],
         [⟨1, 5, 2, "x", 5⟩, ⟨2, 6, 2, "y", 9⟩, ⟨3, 6, 2, "z", 11⟩]⟩
        (some []) 1).counts = [(5, 1), (6, 1)] ∧
    (get_unread_counts
        ⟨[(5, "a"), (6, "b")], [(1, "alice")],
         [⟨1, 5, none⟩, ⟨1, 6, some 10⟩],
         [⟨1, 5, 2, "x", 5⟩, ⟨2, 6, 2, "y", 9⟩, ⟨3, 6, 2, "z", 11⟩]⟩
        (some []) 1).redis = some [(1, [(5, 1), (6, 1)])] ∧
    (get_unread_counts
        ⟨[(5, "a"), (6, "b")], [(1, "alice")],
         [⟨1, 5, none⟩, ⟨1, 6, some 10⟩],
         [⟨1, 5, 2, "x", 5⟩, ⟨2, 6, 2, "y", 9⟩, ⟨3, 6, 2, "z", 11⟩]⟩
        (some []) 1).trace
      = [.redis_hgetall 1, .db_query_memberships 1, .db_get_user_room 1 5,
         .db_count_messages 1 5, .db_get_user_room 1 6, .db_count_messages 1 6,
         .redis_hset 1 [(5, 1), (6, 1)], .redis_expire 1 86400] := by
  have h := get_unread_counts_amended
    ⟨[(5, "a"), (6, "b")], [(1, "alice")],
     [⟨1, 5, none⟩, ⟨1, 6, some 10⟩],
     [⟨1, 5, 2, "x", 5⟩, ⟨2, 6, 2, "y", 9⟩, ⟨3, 6, 2, "z", 11⟩]⟩
    [] 1 rfl (by decide) (by decide)
  refine ⟨?_, ?_, ?_⟩
  · rw [h.2.2.2.2.1]
    decide
  · rw [h.2.2.2.2.2.1]
    decide
  · rw [h.2.2.2.2.2.2]
    decide

/-! Embedding of the keyset pagination engine:
`app/crud/message.py get_messages_by_room` and
`app/api/messages.py get_room_messages` (claim C1).

Timestamps are naturals; the composite sort key is the lexicographic pair
`(created_at, id)`. A cursor is carried as the raw `(created_at, id)` pair:
on the wire it round-trips through `encode_cursor`/`decode_cursor`, whose
byte-level round-trip is claim C4's subject. The durable store between two
page fetches is a function `dbs : Nat → List Msg`; fetching page `t` reads
`dbs t`. -/

/-- The composite pagination key `(created_at DESC, id DESC)` orders by. -/
def Msg.key (m : Msg) : Nat ×ₗ Nat := toLex (m.created_at, m.id)

/-- The SQL cursor predicate of `get_messages_by_room`:
`created_at < c OR (created_at = c AND id < cursor_id)`. -/
def beforeCursor (before_created_at : Nat) (before_id : Nat) (m : Msg) : Bool :=
  m.created_at < before_created_at ||
    (m.created_at == before_created_at && m.id < before_id)

/-- Reading `r a b` as "a comes no later than b" under
`ORDER BY created_at DESC, id DESC`. -/
def msgGE (a b : Msg) : Prop := Msg.key b ≤ Msg.key a

/-- Strictly-descending version of `msgGE`. -/
def msgGT (a b : Msg) : Prop := Msg.key b < Msg.key a

instance : DecidableRel msgGE := fun _ _ => inferInstanceAs (Decidable (_ ≤ _))

instance : DecidableRel msgGT := fun _ _ => inferInstanceAs (Decidable (_ < _))

instance : IsTotal Msg msgGE :=
  ⟨fun a b => (le_total (Msg.key b) (Msg.key a)).imp (fun h => h) (fun h => h)⟩

instance : IsTrans Msg msgGE := ⟨fun _ _ _ h1 h2 => le_trans h2 h1⟩

instance : IsAntisymm Msg msgGT :=
  ⟨fun _ _ h1 h2 => absurd h1 (lt_asymm h2)⟩

/-- The `ORDER BY created_at DESC, id DESC` of the queries. -/
def sortDesc (l : List Msg) : List Msg := List.insertionSort msgGE l

/-- `crud/message.py get_messages_by_room`: room filter, optional keyset
cursor filter, descending composite order, `LIMIT limit`. -/
def get_messages_by_room (messages : List Msg) (room_id : RoomId) (limit : Nat)
    (cursor : Option (Nat × Nat)) : List Msg :=
  let base := messages.filter (fun m => m.room_id == room_id)
  let filtered := match cursor with
    | none => base
    | some c => base.filter (beforeCursor c.1 c.2)
  (sortDesc filtered).take limit

/-- `api/messages.py get_room_messages`: fetches `limit + 1` rows, truncates
to `limit` when the extra row came back, and builds `next_cursor` from the
last (oldest) returned row — absent when fewer than `limit + 1` rows came
back. -/
def get_room_messages (messages : List Msg) (room_id : RoomId) (limit : Nat)
    (cursor : Option (Nat × Nat)) : List Msg × Option (Nat × Nat) :=
  let msgs := get_messages_by_room messages room_id (limit + 1) cursor
  let has_more := decide (msgs.length > limit)
  let page := if has_more then msgs.take limit else msgs
  let next_cursor :=
    if has_more && !page.isEmpty then
      match page.getLast? with
      | some last => some (last.created_at, last.id)
      | none => none
    else none
  (page, next_cursor)

/-- The client's history loop: fetch a page, follow `next_cursor` until it is
absent; `t` counts the fetches so the store may change between them. `fuel`
bounds the number of fetches. -/
def paginate (dbs : Nat → List Msg) (room_id : RoomId) (limit : Nat) :
    Nat → Nat → Option (Nat × Nat) → List Msg
  | 0, _, _ => []
  | fuel + 1, t, cursor =>
    let pr := get_room_messages (dbs t) room_id limit cursor
    match pr.2 with
    | none => pr.1
    | some c => pr.1 ++ paginate dbs room_id limit fuel (t + 1) (some c)

/-- The room's rows in the durable store at fetch `t`. -/
def roomMsgs (dbs : Nat → List Msg) (room_id : RoomId) (t : Nat) : List Msg :=
  (dbs t).filter (fun m => m.room_id == room_id)

/-- Helper: the SQL cursor predicate is exactly strict lexicographic descent
below the cursor key. -/
theorem beforeCursor_iff (ca ci : Nat) (m : Msg) :
    beforeCursor ca ci m = true ↔ Msg.key m < toLex (ca, ci) := by
  rw [Msg.key, Prod.Lex.lt_iff]
  simp [beforeCursor]

/-- Helper: boolean form of `beforeCursor_iff`. -/
theorem beforeCursor_eq_decide (ca ci : Nat) (m : Msg) :
    beforeCursor ca ci m = decide (Msg.key m < toLex (ca, ci)) := by
  rw [Bool.eq_iff_iff, beforeCursor_iff, decide_eq_true_iff]

/-- Helper: a `(created_at, id)`-distinct sorted list is strictly sorted. -/
theorem sorted_msgGT_of_nodup {l : List Msg} (hs : List.Sorted msgGE l)
    (hnd : (l.map Msg.key).Nodup) : List.Sorted msgGT l := by
  have hs' : List.Pairwise msgGE l := hs
  have hne : List.Pairwise (fun a b : Msg => Msg.key a ≠ Msg.key b) l :=
    List.pairwise_map.mp hnd
  exact (hs'.and hne).imp (fun h => lt_of_le_of_ne h.1 (Ne.symm h.2))

theorem sortDesc_perm (l : List Msg) : List.Perm (sortDesc l) l :=
  List.perm_insertionSort msgGE l

theorem sortDesc_sorted (l : List Msg) : List.Sorted msgGE (sortDesc l) :=
  List.sorted_insertionSort msgGE l

theorem sortDesc_keys_nodup {l : List Msg} (h : (l.map Msg.key).Nodup) :
    ((sortDesc l).map Msg.key).Nodup :=
  (List.Perm.nodup_iff (List.Perm.map Msg.key (sortDesc_perm l))).mpr h

theorem sortDesc_sorted_strict {l : List Msg} (h : (l.map Msg.key).Nodup) :
    List.Sorted msgGT (sortDesc l) :=
  sorted_msgGT_of_nodup (sortDesc_sorted l) (sortDesc_keys_nodup h)

theorem filter_keys_nodup {l : List Msg} (p : Msg → Bool) (h : (l.map Msg.key).Nodup) :
    ((l.filter p).map Msg.key).Nodup :=
  List.Nodup.sublist (List.Sublist.map Msg.key (List.filter_sublist l)) h

/-- Helper: with distinct keys, sorting commutes with filtering — the heart
of keyset stability. -/
theorem sortDesc_filter (p : Msg → Bool) (l : List Msg) (h : (l.map Msg.key).Nodup) :
    sortDesc (l.filter p) = (sortDesc l).filter p := by
  apply List.eq_of_perm_of_sorted (r := msgGT)
  · exact (sortDesc_perm _).trans (((sortDesc_perm l).filter p).symm)
  · exact sortDesc_sorted_strict (filter_keys_nodup p h)
  · exact List.Pairwise.filter p (sortDesc_sorted_strict h)

/-- Helper: in a strictly descending list, the rows strictly below the last
row of the first `K` are exactly the rows after the first `K`. -/
theorem filter_below_take_getLast :
    ∀ (K : Nat) (T : List Msg) (last : Msg), 1 ≤ K → List.Sorted msgGT T →
      K < T.length → (T.take K).getLast? = some last →
      T.filter (fun m => decide (Msg.key m < Msg.key last)) = T.drop K
  | 0, _, _, hK, _, _, _ => absurd hK (by omega)
  | _ + 1, [], _, _, _, hlen, _ => absurd hlen (by simp)
  | 1, h :: T', last, _, hs, _, hlast => by
    have hlh : last = h := by
      simp only [List.take_succ_cons, List.take_zero, List.getLast?_singleton,
        Option.some.injEq] at hlast
      exact hlast.symm
    subst hlh
    rw [List.drop_succ_cons, List.drop_zero, List.filter_cons, if_neg (by simp)]
    apply List.filter_eq_self.mpr
    intro m hm
    simpa using (List.sorted_cons.mp hs).1 m hm
  | _ + 2, _ :: [], _, _, _, hlen, _ => by
    simp at hlen
  | K + 2, h :: h2 :: T'', last, hK, hs, hlen, hlast => by
    have hT' : K + 1 < (h2 :: T'').length := by simpa using hlen
    have hlast' : ((h2 :: T'').take (K + 1)).getLast? = some last := by
      simpa [List.take_succ_cons, List.getLast?_cons_cons] using hlast
    have ih := filter_below_take_getLast (K + 1) (h2 :: T'') last (by omega)
      (List.sorted_cons.mp hs).2 hT' hlast'
    have hlastmem : last ∈ h2 :: T'' :=
      List.take_subset _ _ (List.mem_of_getLast?_eq_some hlast')
    have hhlast : Msg.key last < Msg.key h := (List.sorted_cons.mp hs).1 last hlastmem
    rw [List.filter_cons, if_neg (by simpa using lt_asymm hhlast), ih]
    rfl

/-- Helper: the history fetch with no cursor at the initial store. -/
theorem fetch_none_eq (dbs : Nat → List Msg) (room_id : RoomId) (L : Nat) :
    get_messages_by_room (dbs 0) room_id L none
      = (sortDesc (roomMsgs dbs room_id 0)).take L := rfl

/-- Helper: a fetch below the key of an original row sees exactly the
original rows below that key — rows inserted later all carry strictly larger
keys, so the keyset comparison excludes them. -/
theorem fetch_cursor_eq (dbs : Nat → List Msg) (room_id : RoomId)
    (hkeys : ((roomMsgs dbs room_id 0).map Msg.key).Nodup)
    (hgrow : ∀ t, ∃ ins, roomMsgs dbs room_id t = roomMsgs dbs room_id 0 ++ ins ∧
      ∀ m' ∈ ins, ∀ m ∈ roomMsgs dbs room_id 0, Msg.key m < Msg.key m')
    (t : Nat) (x : Msg) (hx : x ∈ roomMsgs dbs room_id 0) (L : Nat) :
    get_messages_by_room (dbs t) room_id L (some (x.created_at, x.id))
      = (((sortDesc (roomMsgs dbs room_id 0)).filter
          (fun m => decide (Msg.key m < Msg.key x))).take L) := by
  obtain ⟨ins, hins, hfr⟩ := hgrow t
  have hconv : ∀ l : List Msg, l.filter (beforeCursor x.created_at x.id)
      = l.filter (fun m => decide (Msg.key m < Msg.key x)) := by
    intro l
    apply List.filter_congr
    intro m _
    rw [beforeCursor_eq_decide]
    rfl
  have hins0 : ins.filter (fun m => decide (Msg.key m < Msg.key x)) = [] := by
    apply List.filter_eq_nil_iff.mpr
    intro m' hm'
    simp only [decide_eq_true_iff]
    exact not_lt_of_gt (hfr m' hm' x hx)
  show (sortDesc ((roomMsgs dbs room_id t).filter
    (beforeCursor x.created_at x.id))).take L = _
  rw [hconv, hins, List.filter_append, hins0, List.append_nil,
    sortDesc_filter _ _ hkeys]

/-- Helper: `get_room_messages` when fewer than `limit + 1` rows come back:
the whole fetch is the page and `next_cursor` is absent. -/
theorem get_room_messages_last (M : List Msg) (room_id : RoomId) (K : Nat)
    (cursor : Option (Nat × Nat)) (T : List Msg)
    (h : get_messages_by_room M room_id (K + 1) cursor = T) (hlen : T.length ≤ K) :
    get_room_messages M room_id K cursor = (T, none) := by
  simp only [get_room_messages, h]
  have hm : ¬(T.length > K) := by omega
  simp [hm]

/-- Helper: `get_room_messages` when `limit + 1` rows come back: truncate to
`limit` and emit a cursor built from the last returned row. -/
theorem get_room_messages_more (M : List Msg) (room_id : RoomId) (K : Nat)
    (cursor : Option (Nat × Nat)) (rows : List Msg) (last : Msg)
    (h : get_messages_by_room M room_id (K + 1) cursor = rows) (hK : 1 ≤ K)
    (hlen : rows.length = K + 1) (hlast : (rows.take K).getLast? = some last) :
    get_room_messages M room_id K cursor
      = (rows.take K, some (last.created_at, last.id)) := by
  simp only [get_room_messages, h]
  have hm : rows.length > K := by omega
  have hne : (rows.take K).isEmpty = false := by
    have hl : (rows.take K).length = K := by
      rw [List.length_take]
      omega
    rcases hrt : rows.take K with - | -
    · rw [hrt] at hl
      simp at hl
      omega
    · simp
  simp [hm, hne, hlast]

/-- Helper: the main pagination induction. With the page-loop invariant —
the cursor is the key of an original row and the remainder is the original
sorted history strictly below it — each fetch returns the next `K` rows of
the original sorted history, regardless of rows inserted later. -/
theorem paginate_aux (dbs : Nat → List Msg) (room_id : RoomId) (K : Nat) (hK : 1 ≤ K)
    (hkeys : ((roomMsgs dbs room_id 0).map Msg.key).Nodup)
    (hgrow : ∀ t, ∃ ins, roomMsgs dbs room_id t = roomMsgs dbs room_id 0 ++ ins ∧
      ∀ m' ∈ ins, ∀ m ∈ roomMsgs dbs room_id 0, Msg.key m < Msg.key m') :
    ∀ (fuel t : Nat) (cursor : Option (Nat × Nat)) (T : List Msg),
      ((cursor = none ∧ t = 0 ∧ T = sortDesc (roomMsgs dbs room_id 0)) ∨
       (∃ x ∈ roomMsgs dbs room_id 0, cursor = some (x.created_at, x.id) ∧
         T = (sortDesc (roomMsgs dbs room_id 0)).filter
           (fun m => decide (Msg.key m < Msg.key x)))) →
      T.length + 1 ≤ fuel →
      paginate dbs room_id K fuel t cursor = T := by
  intro fuel
  induction fuel with
  | zero =>
    intro t cursor T _ hf
    omega
  | succ f ih =>
    intro t cursor T hm hf
    have hsortedT : List.Sorted msgGT T := by
      rcases hm with ⟨-, -, rfl⟩ | ⟨x, -, -, rfl⟩
      · exact sortDesc_sorted_strict hkeys
      · exact List.Pairwise.filter _ (sortDesc_sorted_strict hkeys)
    have hrows : get_messages_by_room (dbs t) room_id (K + 1) cursor
        = T.take (K + 1) := by
      rcases hm with ⟨rfl, rfl, rfl⟩ | ⟨x, hx, rfl, rfl⟩
      · exact fetch_none_eq dbs room_id (K + 1)
      · exact fetch_cursor_eq dbs room_id hkeys hgrow t x hx (K + 1)
    by_cases hcase : T.length ≤ K
    · have hrows' : get_messages_by_room (dbs t) room_id (K + 1) cursor = T := by
        rw [hrows, List.take_of_length_le (by omega)]
      have hpr := get_room_messages_last _ _ _ _ _ hrows' hcase
      simp only [paginate, hpr]
    · push_neg at hcase
      have hlen : (T.take (K + 1)).length = K + 1 := by
        rw [List.length_take]
        omega
      have hpage : (T.take (K + 1)).take K = T.take K := by
        rw [List.take_take]
        congr 1
        omega
      have hne : T.take K ≠ [] := by
        have hl : (T.take K).length = K := by
          rw [List.length_take]
          omega
        intro hnil
        rw [hnil] at hl
        simp at hl
        omega
      obtain ⟨last, hlast⟩ := Option.isSome_iff_exists.mp (List.getLast?_isSome.mpr hne)
      have hlast' : ((T.take (K + 1)).take K).getLast? = some last := by
        rw [hpage]
        exact hlast
      have hpr := get_room_messages_more _ _ _ _ _ last hrows hK hlen hlast'
      rw [hpage] at hpr
      have hlastT : last ∈ T := List.take_subset K T (List.mem_of_getLast?_eq_some hlast)
      have hlast0 : last ∈ roomMsgs dbs room_id 0 := by
        have hTsub : last ∈ sortDesc (roomMsgs dbs room_id 0) := by
          rcases hm with ⟨-, -, rfl⟩ | ⟨x, -, -, rfl⟩
          · exact hlastT
          · exact List.filter_subset' _ hlastT
        exact (sortDesc_perm (roomMsgs dbs room_id 0)).mem_iff.mp hTsub
      have hKL : T.filter (fun m => decide (Msg.key m < Msg.key last)) = T.drop K :=
        filter_below_take_getLast K T last hK hsortedT hcase hlast
      have habs : (sortDesc (roomMsgs dbs room_id 0)).filter
          (fun m => decide (Msg.key m < Msg.key last)) = T.drop K := by
        rcases hm with ⟨-, -, rfl⟩ | ⟨x, hx, -, rfl⟩
        · exact hKL
        · have hlx : Msg.key last < Msg.key x :=
            of_decide_eq_true (List.mem_filter.mp hlastT).2
          have hcomb : ((sortDesc (roomMsgs dbs room_id 0)).filter
              (fun m => decide (Msg.key m < Msg.key x))).filter
                (fun m => decide (Msg.key m < Msg.key last))
              = (sortDesc (roomMsgs dbs room_id 0)).filter
                  (fun m => decide (Msg.key m < Msg.key last)) := by
            rw [List.filter_filter]
            apply List.filter_congr
            intro m _
            cases hd : decide (Msg.key m < Msg.key last)
            · simp
            · simp only [Bool.true_and]
              exact decide_eq_true (lt_trans (of_decide_eq_true hd) hlx)
          rw [← hcomb]
          exact hKL
      have hrec := ih (t + 1) (some (last.created_at, last.id)) (T.drop K)
        (Or.inr ⟨last, hlast0, rfl, habs.symm ▸ rfl⟩)
        (by rw [List.length_drop]; omega)
      simp only [paginate, hpr, hrec]
      exact List.take_append_drop K T

/-- C1: starting with no cursor and following each returned `next_cursor`
over a room holding N messages with pairwise-distinct `(created_at, id)`
keys, the concatenation of the successive backward pages equals the room's
initial history sorted `(created_at DESC, id DESC)` — every one of the N
messages exactly once, newest-first, no duplicates and no gaps — for every
page size `K ≥ 1` and even when further messages (which, having fresh serial
ids and non-decreasing timestamps, carry strictly larger keys) are inserted
between page fetches. Each fetch reads `limit+1` rows strictly below the
cursor key, truncates to `limit`, and emits `next_cursor` from the last
(oldest) returned row, absent when fewer than `limit+1` rows came back. -/
theorem backward_pagination_exhaustive (dbs : Nat → List Msg) (room_id : RoomId)
    (K : Nat) (hK : 1 ≤ K)
    (hkeys : ((roomMsgs dbs room_id 0).map Msg.key).Nodup)
    (hgrow : ∀ t, ∃ ins, roomMsgs dbs room_id t = roomMsgs dbs room_id 0 ++ ins ∧
      ∀ m' ∈ ins, ∀ m ∈ roomMsgs dbs room_id 0, Msg.key m < Msg.key m')
    (fuel : Nat) (hfuel : (roomMsgs dbs room_id 0).length + 1 ≤ fuel) :
    paginate dbs room_id K fuel 0 none = sortDesc (roomMsgs dbs room_id 0) ∧
    List.Perm (paginate dbs room_id K fuel 0 none) (roomMsgs dbs room_id 0) ∧
    List.Sorted msgGT (paginate dbs room_id K fuel 0 none) := by
  have h := paginate_aux dbs room_id K hK hkeys hgrow fuel 0 none
    (sortDesc (roomMsgs dbs room_id 0)) (Or.inl ⟨rfl, rfl, rfl⟩)
    (by rw [(sortDesc_perm (roomMsgs dbs room_id 0)).length_eq]; omega)
  refine ⟨h, ?_, ?_⟩
  · rw [h]
    exact sortDesc_perm _
  · rw [h]
    exact sortDesc_sorted_strict hkeys

/-- Store history for the C1 witness: room 1 initially holds messages with
keys (1,1), (1,2), (2,3) (а message of room 2 sits in between); from the
second fetch on, a newer message with key (3,4) has been inserted. -/
def dbsC1 : Nat → List Msg
  | 0 => [⟨1, 1, 9, "a", 1⟩, ⟨2, 1, 9, "b", 1⟩, ⟨5, 2, 9, "e", 9⟩, ⟨3, 1, 9, "c", 2⟩]
  | _ + 1 => [⟨1, 1, 9, "a", 1⟩, ⟨2, 1, 9, "b", 1⟩, ⟨5, 2, 9, "e", 9⟩,
      ⟨3, 1, 9, "c", 2⟩, ⟨4, 1, 9, "d", 3⟩]

/-- C1 witness: page size 1 over the 3-message room, with a concurrent
insert after the first fetch: the loop returns exactly the three original
messages newest-first. -/
theorem backward_pagination_exhaustive_witness :
    paginate dbsC1 1 1 4 0 none
      = [⟨3, 1, 9, "c", 2⟩, ⟨2, 1, 9, "b", 1⟩, ⟨1, 1, 9, "a", 1⟩] := by
  have hgrow : ∀ t, ∃ ins, roomMsgs dbsC1 1 t = roomMsgs dbsC1 1 0 ++ ins ∧
      ∀ m' ∈ ins, ∀ m ∈ roomMsgs dbsC1 1 0, Msg.key m < Msg.key m' := by
    intro t
    match t with
    | 0 => exact ⟨[], by decide, by decide⟩
    | t' + 1 =>
      refine ⟨[⟨4, 1, 9, "d", 3⟩], ?_, ?_⟩
      · simp only [roomMsgs, dbsC1]
        decide
      intro m' hm' m hm
      simp only [List.mem_singleton] at hm'
      subst hm'
      simp only [roomMsgs, dbsC1] at hm
      rw [Msg.key, Msg.key, Prod.Lex.lt_iff]
      fin_cases hm <;> simp
  have h := backward_pagination_exhaustive dbsC1 1 1 (by omega) (by decide) hgrow 4
    (by decide)
  rw [h.1]
  decide

/-! Embedding of `app/utils/cursor.py` (claims C4 and C5).

`encode_cursor` is `base64.urlsafe_b64encode(json.dumps({...}))` over the
`datetime.isoformat()` text; `decode_cursor` is the inverse pipeline with
the source's error handling. Python `str` is modelled as `List Char`, bytes
as `List Nat`, and `datetime` as a record of calendar fields with an
optional fixed UTC offset in whole minutes. The stdlib stages
(`base64`, `json`, `datetime` parsing/printing, UTF-8) are modelled on the
subsets of their behavior the cursor code exercises; their error detail
texts are fixed representative strings. -/

/-- Decimal digit character. -/
def digitChar (n : Nat) : Char := Char.ofNat (48 + n)

def isDigitChar (c : Char) : Bool := 48 ≤ c.toNat && c.toNat ≤ 57

def digitVal (c : Char) : Nat := c.toNat - 48

/-- Fixed-width zero-padded decimal rendering, most significant first. -/
def padNat : Nat → Nat → List Char
  | 0, _ => []
  | w + 1, n => digitChar (n / 10 ^ w) :: padNat w (n % 10 ^ w)

/-- Fixed-width decimal parsing (accumulator form). -/
def parseNatWAux : Nat → Nat → List Char → Option (Nat × List Char)
  | 0, acc, cs => some (acc, cs)
  | _ + 1, _, [] => none
  | w + 1, acc, c :: cs =>
    if isDigitChar c then parseNatWAux w (acc * 10 + digitVal c) cs else none

def parseNatW (w : Nat) (cs : List Char) : Option (Nat × List Char) :=
  parseNatWAux w 0 cs

theorem digitChar_toNat (n : Nat) (h : n < 10) : (digitChar n).toNat = 48 + n := by
  have hall : ∀ m, m < 10 → (digitChar m).toNat = 48 + m := by decide
  exact hall n h

theorem isDigitChar_digitChar (n : Nat) (h : n < 10) :
    isDigitChar (digitChar n) = true := by
  have hall : ∀ m, m < 10 → isDigitChar (digitChar m) = true := by decide
  exact hall n h

theorem digitVal_digitChar (n : Nat) (h : n < 10) : digitVal (digitChar n) = n := by
  have hall : ∀ m, m < 10 → digitVal (digitChar m) = m := by decide
  exact hall n h

theorem parseNatWAux_pad : ∀ (w acc n : Nat) (cs : List Char), n < 10 ^ w →
    parseNatWAux w acc (padNat w n ++ cs) = some (acc * 10 ^ w + n, cs)
  | 0, acc, n, cs, h => by
    have hn : n = 0 := by simpa using h
    subst hn
    simp [padNat, parseNatWAux]
  | w + 1, acc, n, cs, h => by
    have hq : n / 10 ^ w < 10 := by
      apply Nat.div_lt_of_lt_mul
      rw [pow_succ] at h
      exact h
    simp only [padNat, List.cons_append, parseNatWAux,
      isDigitChar_digitChar _ hq, if_true, digitVal_digitChar _ hq, List.append_eq]
    rw [parseNatWAux_pad w _ _ cs (Nat.mod_lt _ (Nat.pos_pow_of_pos w (by omega)))]
    congr 2
    have hdm : 10 ^ w * (n / 10 ^ w) + n % 10 ^ w = n := Nat.div_add_mod n (10 ^ w)
    calc (acc * 10 + n / 10 ^ w) * 10 ^ w + n % 10 ^ w
        = acc * (10 ^ w * 10) + (10 ^ w * (n / 10 ^ w) + n % 10 ^ w) := by ring
      _ = acc * 10 ^ (w + 1) + n := by rw [hdm, pow_succ]

theorem parseNatW_pad (w n : Nat) (cs : List Char) (h : n < 10 ^ w) :
    parseNatW w (padNat w n ++ cs) = some (n, cs) := by
  rw [parseNatW, parseNatWAux_pad w 0 n cs h, Nat.zero_mul, Nat.zero_add]

/-- Python `datetime`: calendar fields plus an optional fixed UTC offset in
whole minutes (the offsets `timezone(timedelta(minutes=k))` produces). -/
structure PyDateTime where
  year : Nat
  month : Nat
  day : Nat
  hour : Nat
  minute : Nat
  second : Nat
  microsecond : Nat
  tzOffset : Option Int
deriving Repr, DecidableEq

def isLeapYear (y : Nat) : Bool := (y % 4 == 0 && y % 100 != 0) || y % 400 == 0

def daysInMonth (y m : Nat) : Nat :=
  if m = 2 then (if isLeapYear y then 29 else 28)
  else if m = 4 ∨ m = 6 ∨ m = 9 ∨ m = 11 then 30
  else 31

/-- The field ranges `datetime` itself enforces (`MINYEAR..MAXYEAR` etc.). -/
def PyDateTime.isValid (d : PyDateTime) : Bool :=
  1 ≤ d.year && d.year ≤ 9999 && 1 ≤ d.month && d.month ≤ 12 &&
  1 ≤ d.day && d.day ≤ daysInMonth d.year d.month &&
  d.hour ≤ 23 && d.minute ≤ 59 && d.second ≤ 59 && d.microsecond ≤ 999999 &&
  (match d.tzOffset with
   | none => true
   | some o => decide (-1439 ≤ o) && decide (o ≤ 1439))

/-- The fractional part `isoformat` prints: microseconds only when nonzero. -/
def isoFrac (us : Nat) : List Char :=
  if us == 0 then [] else '.' :: padNat 6 us

/-- The UTC-offset suffix `isoformat` prints for an aware datetime. -/
def isoOffset : Option Int → List Char
  | none => []
  | some o =>
    (if o < 0 then '-' else '+') ::
      (padNat 2 (o.natAbs / 60) ++ ':' :: padNat 2 (o.natAbs % 60))

/-- `datetime.isoformat()`: `YYYY-MM-DDTHH:MM:SS[.ffffff][±HH:MM]`. -/
def PyDateTime.isoformat (d : PyDateTime) : List Char :=
  padNat 4 d.year ++ '-' ::
    (padNat 2 d.month ++ '-' ::
      (padNat 2 d.day ++ 'T' ::
        (padNat 2 d.hour ++ ':' ::
          (padNat 2 d.minute ++ ':' ::
            (padNat 2 d.second ++ (isoFrac d.microsecond ++ isoOffset d.tzOffset))))))

def expectChar (c : Char) : List Char → Option (List Char)
  | [] => none
  | x :: rest => if x = c then some rest else none

/-- Parses the `HH:MM` magnitude of an offset and requires the end of the
input. -/
def parseOffsetMag (cs : List Char) : Option Int :=
  match parseNatW 2 cs with
  | none => none
  | some (hh, r1) =>
    match expectChar ':' r1 with
    | none => none
    | some r2 =>
      match parseNatW 2 r2 with
      | some (mm, []) => some ((hh : Int) * 60 + mm)
      | _ => none

/-- Parses the optional trailing UTC offset (or the end of the input). -/
def parseOffset : List Char → Option (Option Int)
  | [] => some none
  | c :: rest =>
    if c = '+' then (parseOffsetMag rest).map (fun o => some o)
    else if c = '-' then (parseOffsetMag rest).map (fun o => some (-o))
    else none

/-- Tail of `fromisoformat` after the six dash/colon-separated fields. -/
def fromisoTail (y mo dd hh mi ss us : Nat) (r : List Char) : Option PyDateTime :=
  match parseOffset r with
  | none => none
  | some tz =>
    let dt : PyDateTime := ⟨y, mo, dd, hh, mi, ss, us, tz⟩
    if dt.isValid then some dt else none

/-- `datetime.fromisoformat` on the grammar `isoformat` emits (the model
accepts exactly that shape; the real parser accepts some further spellings
of the same values). -/
def fromisoformat (cs : List Char) : Option PyDateTime :=
  match parseNatW 4 cs with
  | none => none
  | some (y, r1) =>
    match expectChar '-' r1 with
    | none => none
    | some r2 =>
      match parseNatW 2 r2 with
      | none => none
      | some (mo, r3) =>
        match expectChar '-' r3 with
        | none => none
        | some r4 =>
          match parseNatW 2 r4 with
          | none => none
          | some (dd, r5) =>
            match expectChar 'T' r5 with
            | none => none
            | some r6 =>
              match parseNatW 2 r6 with
              | none => none
              | some (hh, r7) =>
                match expectChar ':' r7 with
                | none => none
                | some r8 =>
                  match parseNatW 2 r8 with
                  | none => none
                  | some (mi, r9) =>
                    match expectChar ':' r9 with
                    | none => none
                    | some r10 =>
                      match parseNatW 2 r10 with
                      | none => none
                      | some (ss, r11) =>
                        match r11 with
                        | [] => fromisoTail y mo dd hh mi ss 0 []
                        | c :: r12 =>
                          if c = '.' then
                            match parseNatW 6 r12 with
                            | none => none
                            | some (us, r13) => fromisoTail y mo dd hh mi ss us r13
                          else fromisoTail y mo dd hh mi ss 0 (c :: r12)

theorem expectChar_cons (c : Char) (cs : List Char) :
    expectChar c (c :: cs) = some cs := by
  simp [expectChar]

theorem daysInMonth_le (y m : Nat) : daysInMonth y m ≤ 31 := by
  rw [daysInMonth]
  split
  · split <;> omega
  · split <;> omega

/-- Helper: `fromisoformat` inverts `isoformat` on valid datetimes. -/
theorem fromisoformat_isoformat (d : PyDateTime) (h : d.isValid = true) :
    fromisoformat d.isoformat = some d := by
  have hv := h
  simp only [PyDateTime.isValid, Bool.and_eq_true, decide_eq_true_iff] at hv
  obtain ⟨⟨⟨⟨⟨⟨⟨⟨⟨⟨-, hy2⟩, -⟩, hmo2⟩, -⟩, hd2⟩, hhr⟩, hmi⟩, hs⟩, hus⟩, htz⟩ := hv
  have hdim : d.day < 10 ^ 2 :=
    lt_of_le_of_lt hd2 (lt_of_le_of_lt (daysInMonth_le _ _) (by norm_num))
  have hoffset : parseOffset (isoOffset d.tzOffset) = some d.tzOffset := by
    match hcase : d.tzOffset with
    | none => rfl
    | some o =>
      rw [hcase] at htz
      rw [Bool.and_eq_true, decide_eq_true_iff, decide_eq_true_iff] at htz
      have habs : o.natAbs ≤ 1439 := by omega
      have hhh : o.natAbs / 60 < 10 ^ 2 := by omega
      have hmm : o.natAbs % 60 < 10 ^ 2 := by omega
      have hp2 : parseNatW 2 (padNat 2 (o.natAbs % 60)) = some (o.natAbs % 60, []) := by
        have hx := parseNatW_pad 2 (o.natAbs % 60) [] hmm
        rwa [List.append_nil] at hx
      have hmag : parseOffsetMag (padNat 2 (o.natAbs / 60) ++ ':' ::
          padNat 2 (o.natAbs % 60)) = some (o.natAbs : Int) := by
        simp only [parseOffsetMag, parseNatW_pad 2 _ _ hhh, expectChar_cons, hp2]
        congr 1
        conv_rhs => rw [show o.natAbs = 60 * (o.natAbs / 60) + o.natAbs % 60 from
          (Nat.div_add_mod _ _).symm]
        push_cast
        ring
      by_cases ho : o < 0
      · simp only [isoOffset, if_pos ho, parseOffset, if_neg (by decide : ¬('-' = '+')),
          if_pos rfl, hmag]
        show some (some (-(o.natAbs : Int))) = some (some o)
        have hoa : -(o.natAbs : Int) = o := by omega
        rw [hoa]
      · simp only [isoOffset, if_neg ho, parseOffset, if_pos rfl, hmag]
        show some (some ((o.natAbs : Int))) = some (some o)
        have hoa : ((o.natAbs : Int)) = o := by omega
        rw [hoa]
  have heta : (⟨d.year, d.month, d.day, d.hour, d.minute, d.second, d.microsecond,
      d.tzOffset⟩ : PyDateTime) = d := rfl
  have htail : fromisoTail d.year d.month d.day d.hour d.minute d.second
      d.microsecond (isoOffset d.tzOffset) = some d := by
    simp only [fromisoTail, hoffset, heta, h, if_true]
  simp only [PyDateTime.isoformat, fromisoformat,
    parseNatW_pad 4 d.year _ (by omega), expectChar_cons,
    parseNatW_pad 2 d.month _ (by omega),
    parseNatW_pad 2 d.day _ hdim,
    parseNatW_pad 2 d.hour _ (by omega),
    parseNatW_pad 2 d.minute _ (by omega),
    parseNatW_pad 2 d.second _ (by omega)]
  by_cases hz : d.microsecond = 0
  · rw [hz] at htail
    simp only [isoFrac, hz, if_pos rfl, List.nil_append]
    match hcase : d.tzOffset with
    | none =>
      rw [hcase] at htail
      exact htail
    | some o =>
      rw [hcase] at htail
      by_cases ho : o < 0
      · simp only [isoOffset, if_pos ho] at htail ⊢
        exact htail
      · simp only [isoOffset, if_neg ho] at htail ⊢
        exact htail
  · have hz' : (d.microsecond == 0) = false := by simpa using hz
    simp only [isoFrac, hz', Bool.false_eq_true, if_false, List.cons_append,
      if_pos rfl, parseNatW_pad 6 d.microsecond _ (by omega)]
    exact htail

/-! JSON, modelled on the subset `json.dumps` / `json.loads` exercise here:
numbers are integers (the cursor's `id`), strings support the simple escape
sequences, objects and arrays nest arbitrarily (bounded by a fuel that
exceeds any input's nesting depth). -/

/-- JSON values as `json.loads` returns them. -/
inductive JValue where
  | nullv
  | boolv (b : Bool)
  | num (n : Int)
  | str (s : List Char)
  | arr (items : List JValue)
  | obj (fields : List (List Char × JValue))

/-- Variable-width decimal rendering of a natural (no padding). -/
def natToDigits (n : Nat) : List Char :=
  if n < 10 then [digitChar n]
  else natToDigits (n / 10) ++ [digitChar (n % 10)]
termination_by n
decreasing_by exact Nat.div_lt_self (by omega) (by omega)

/-- Decimal rendering of a Python int. -/
def renderInt (i : Int) : List Char :=
  if i < 0 then '-' :: natToDigits i.natAbs else natToDigits i.natAbs

def digitsToNat (ds : List Char) : Nat :=
  ds.foldl (fun acc c => acc * 10 + digitVal c) 0

/-- The characters of the literal key `"created_at"`. -/
def createdAtKey : List Char := ['c', 'r', 'e', 'a', 't', 'e', 'd', '_', 'a', 't']

/-- The characters of the literal key `"id"`. -/
def idKey : List Char := ['i', 'd']

/-- The exact text `json.dumps({"created_at": iso, "id": message_id})`
produces (default separators `", "` and `": "`, `ensure_ascii`). -/
def jsonDumpsCursor (iso : List Char) (message_id : Int) : List Char :=
  '\x7b' :: '"' :: (createdAtKey ++ '"' :: ':' :: ' ' :: '"' ::
    (iso ++ '"' :: ',' :: ' ' :: '"' :: (idKey ++ '"' :: ':' :: ' ' ::
      (renderInt message_id ++ ['\x7d']))))

def isWsChar (c : Char) : Bool := c = ' ' || c = '\t' || c = '\n' || c = '\r'

def skipWs (cs : List Char) : List Char := cs.dropWhile isWsChar

def listStarts : List Char → List Char → Bool
  | [], _ => true
  | _ :: _, [] => false
  | a :: as, b :: bs => a == b && listStarts as bs

/-- The simple escape sequences `json.loads` resolves. -/
def escChar (e : Char) : Option Char :=
  if e = '"' then some '"'
  else if e = '\\' then some '\\'
  else if e = '/' then some '/'
  else if e = 'n' then some '\n'
  else if e = 't' then some '\t'
  else if e = 'r' then some '\r'
  else if e = 'b' then some (Char.ofNat 8)
  else if e = 'f' then some (Char.ofNat 12)
  else none

def parseEscape : List Char → Option (Char × List Char)
  | [] => none
  | e :: rest2 => (escChar e).map (fun ch => (ch, rest2))

/-- JSON string body parser (after the opening quote): returns the decoded
string and the input after the closing quote. Every step consumes at least
one character, so a fuel of the input length suffices. -/
def parseStringAux : Nat → List Char → Option (List Char × List Char)
  | _, [] => none
  | 0, _ :: _ => none
  | fuel + 1, c :: rest =>
    if c = '"' then some ([], rest)
    else if c = '\\' then
      match parseEscape rest with
      | none => none
      | some (ch, rest2) =>
        (parseStringAux fuel rest2).map (fun p => (ch :: p.1, p.2))
    else if c.toNat < 32 then none
    else (parseStringAux fuel rest).map (fun p => (c :: p.1, p.2))

def parseString (cs : List Char) : Option (List Char × List Char) :=
  parseStringAux cs.length cs

/-- Digit-run parser for a JSON integer; inputs continuing into a fraction
or exponent (floats) are outside the modelled subset. -/
def parseJsonNat (cs : List Char) : Option (Nat × List Char) :=
  let digits := cs.takeWhile isDigitChar
  let rest := cs.dropWhile isDigitChar
  if digits.isEmpty then none
  else
    match rest with
    | c :: _ => if c = '.' ∨ c = 'e' ∨ c = 'E' then none
                else some (digitsToNat digits, rest)
    | [] => some (digitsToNat digits, [])

def parseJsonInt (cs : List Char) : Option (JValue × List Char) :=
  match cs with
  | [] => none
  | c :: rest =>
    if c = '-' then (parseJsonNat rest).map (fun p => (JValue.num (-(p.1 : Int)), p.2))
    else (parseJsonNat cs).map (fun p => (JValue.num (p.1 : Int), p.2))

mutual

def parseValue : Nat → List Char → Option (JValue × List Char)
  | 0, _ => none
  | f + 1, cs =>
    match skipWs cs with
    | [] => none
    | c :: rest =>
      if c = '\x7b' then parseObjBody f rest
      else if c = '[' then parseArrBody f rest
      else if c = '"' then (parseString rest).map (fun p => (JValue.str p.1, p.2))
      else if c = 't' then
        if listStarts ['r', 'u', 'e'] rest then some (JValue.boolv true, rest.drop 3)
        else none
      else if c = 'f' then
        if listStarts ['a', 'l', 's', 'e'] rest then some (JValue.boolv false, rest.drop 4)
        else none
      else if c = 'n' then
        if listStarts ['u', 'l', 'l'] rest then some (JValue.nullv, rest.drop 3)
        else none
      else if c = '-' ∨ isDigitChar c then parseJsonInt (c :: rest)
      else none

def parseObjBody : Nat → List Char → Option (JValue × List Char)
  | 0, _ => none
  | f + 1, cs =>
    match skipWs cs with
    | [] => none
    | c :: rest =>
      if c = '\x7d' then some (JValue.obj [], rest)
      else (parseMembers f (c :: rest)).map (fun p => (JValue.obj p.1, p.2))

def parseMembers : Nat → List Char → Option (List (List Char × JValue) × List Char)
  | 0, _ => none
  | f + 1, cs =>
    match skipWs cs with
    | [] => none
    | c :: rest =>
      if c = '"' then
        match parseString rest with
        | none => none
        | some (key, r1) =>
          match skipWs r1 with
          | [] => none
          | c2 :: r2 =>
            if c2 = ':' then
              match parseValue f r2 with
              | none => none
              | some (v, r3) =>
                match skipWs r3 with
                | [] => none
                | c3 :: r4 =>
                  if c3 = ',' then
                    (parseMembers f r4).map (fun p => ((key, v) :: p.1, p.2))
                  else if c3 = '\x7d' then some ([(key, v)], r4)
                  else none
            else none
      else none

def parseArrBody : Nat → List Char → Option (JValue × List Char)
  | 0, _ => none
  | f + 1, cs =>
    match skipWs cs with
    | [] => none
    | c :: rest =>
      if c = ']' then some (JValue.arr [], rest)
      else (parseItems f (c :: rest)).map (fun p => (JValue.arr p.1, p.2))

def parseItems : Nat → List Char → Option (List JValue × List Char)
  | 0, _ => none
  | f + 1, cs =>
    match parseValue f cs with
    | none => none
    | some (v, r1) =>
      match skipWs r1 with
      | [] => none
      | c :: r2 =>
        if c = ',' then (parseItems f r2).map (fun p => (v :: p.1, p.2))
        else if c = ']' then some ([v], r2)
        else none

end

/-- `json.loads`: parse one value, allow trailing whitespace only. -/
def jsonLoads (cs : List Char) : Except String JValue :=
  match parseValue (4 * cs.length + 4) cs with
  | none => .error "Expecting value"
  | some (v, rest) =>
    if (skipWs rest).isEmpty then .ok v else .error "Extra data"

/-! Base64 (`base64.urlsafe_b64encode`/`urlsafe_b64decode`) and UTF-8. The
decoder mirrors the lenient stdlib behavior: `-`/`_` are translated to
`+`/`/`, characters outside the alphabet are discarded, and the remaining
stream must split into proper quads with trailing padding; padding faults
surface as the representative `"Incorrect padding"` error text. -/

def b64Char (n : Nat) : Char :=
  if n < 26 then Char.ofNat (65 + n)
  else if n < 52 then Char.ofNat (97 + (n - 26))
  else if n < 62 then Char.ofNat (48 + (n - 52))
  else if n = 62 then '-'
  else '_'

def b64Val (c : Char) : Option Nat :=
  if 65 ≤ c.toNat ∧ c.toNat ≤ 90 then some (c.toNat - 65)
  else if 97 ≤ c.toNat ∧ c.toNat ≤ 122 then some (26 + (c.toNat - 97))
  else if 48 ≤ c.toNat ∧ c.toNat ≤ 57 then some (52 + (c.toNat - 48))
  else if c = '+' then some 62
  else if c = '/' then some 63
  else none

def urlsafeB64Encode : List Nat → List Char
  | [] => []
  | [b1] => [b64Char (b1 / 4), b64Char (b1 % 4 * 16), '=', '=']
  | [b1, b2] => [b64Char (b1 / 4), b64Char (b1 % 4 * 16 + b2 / 16),
      b64Char (b2 % 16 * 4), '=']
  | b1 :: b2 :: b3 :: rest =>
    b64Char (b1 / 4) :: b64Char (b1 % 4 * 16 + b2 / 16) ::
      b64Char (b2 % 16 * 4 + b3 / 64) :: b64Char (b3 % 64) :: urlsafeB64Encode rest

/-- The `-`→`+`, `_`→`/` translation `urlsafe_b64decode` applies first. -/
def b64Translate (c : Char) : Char :=
  if c = '-' then '+' else if c = '_' then '/' else c

/-- Quad decoding over the filtered stream. -/
def b64Quads : List Char → Except String (List Nat)
  | [] => .ok []
  | a :: b :: c :: d :: rest =>
    (match b64Val a, b64Val b with
    | some va, some vb =>
      if c = '=' then
        if d = '=' ∧ rest = [] then .ok [va * 4 + vb / 16]
        else .error "Incorrect padding"
      else
        match b64Val c with
        | some vc =>
          if d = '=' then
            if rest = [] then .ok [va * 4 + vb / 16, vb % 16 * 16 + vc / 4]
            else .error "Incorrect padding"
          else
            match b64Val d with
            | some vd =>
              (b64Quads rest).map (fun bs =>
                (va * 4 + vb / 16) :: (vb % 16 * 16 + vc / 4) ::
                  (vc % 4 * 64 + vd) :: bs)
            | none => .error "Incorrect padding"
        | none => .error "Incorrect padding"
    | _, _ => .error "Incorrect padding")
  | _ => .error "Incorrect padding"

def pyUrlsafeB64Decode (s : List Char) : Except String (List Nat) :=
  b64Quads ((s.map b64Translate).filter (fun c => (b64Val c).isSome || c = '='))

/-- UTF-8 encoding of one character. -/
def utf8EncodeChar (c : Char) : List Nat :=
  let n := c.toNat
  if n < 128 then [n]
  else if n < 2048 then [192 + n / 64, 128 + n % 64]
  else if n < 65536 then [224 + n / 4096, 128 + n / 64 % 64, 128 + n % 64]
  else [240 + n / 262144, 128 + n / 4096 % 64, 128 + n / 64 % 64, 128 + n % 64]

def utf8Encode (cs : List Char) : List Nat := cs.flatMap utf8EncodeChar

/-- One UTF-8 decoding step: consume the bytes of one code point. -/
def utf8DecodeStep (b : Nat) (rest : List Nat) : Option (Nat × List Nat) :=
  if b < 128 then some (b, rest)
  else if b < 194 then none
  else if b < 224 then
    match rest with
    | b2 :: rest2 =>
      if 128 ≤ b2 ∧ b2 < 192 then some ((b - 192) * 64 + (b2 - 128), rest2)
      else none
    | [] => none
  else if b < 240 then
    match rest with
    | b2 :: b3 :: rest3 =>
      if 128 ≤ b2 ∧ b2 < 192 ∧ 128 ≤ b3 ∧ b3 < 192 then
        let v := (b - 224) * 4096 + (b2 - 128) * 64 + (b3 - 128)
        if 2048 ≤ v ∧ ¬(55296 ≤ v ∧ v ≤ 57343) then some (v, rest3)
        else none
      else none
    | _ => none
  else if b < 245 then
    match rest with
    | b2 :: b3 :: b4 :: rest4 =>
      if 128 ≤ b2 ∧ b2 < 192 ∧ 128 ≤ b3 ∧ b3 < 192 ∧ 128 ≤ b4 ∧ b4 < 192 then
        let v := (b - 240) * 262144 + (b2 - 128) * 4096 +
          (b3 - 128) * 64 + (b4 - 128)
        if 65536 ≤ v ∧ v ≤ 1114111 then some (v, rest4)
        else none
      else none
    | _ => none
  else none

def utf8DecodeAux : Nat → List Nat → Option (List Char)
  | _, [] => some []
  | 0, _ :: _ => none
  | fuel + 1, b :: rest =>
    match utf8DecodeStep b rest with
    | some (v, rem) => (utf8DecodeAux fuel rem).map (fun cs => Char.ofNat v :: cs)
    | none => none

/-- UTF-8 decoding (`bytes.decode("utf-8")`), `none` for malformed input.
Each step consumes at least one byte, so a fuel of the byte count suffices. -/
def utf8Decode (bs : List Nat) : Option (List Char) := utf8DecodeAux bs.length bs

/-- Helper: translated encoded sextets decode back to their values. -/
theorem b64_char_val : ∀ n, n < 64 → b64Val (b64Translate (b64Char n)) = some n := by
  decide

/-- Helper: alphabet characters are never the padding character. -/
theorem b64_char_ne_pad : ∀ n, n < 64 → b64Translate (b64Char n) ≠ '=' := by
  decide

/-- Helper: quad decoding inverts the encoder on byte lists. -/
theorem b64_quads_encode : ∀ (bs : List Nat), (∀ b ∈ bs, b < 256) →
    b64Quads (((urlsafeB64Encode bs).map b64Translate).filter
      (fun c => (b64Val c).isSome || c = '=')) = .ok bs
  | [], _ => rfl
  | [b1], h => by
    have hb1 : b1 < 256 := h b1 (by simp)
    have h1 := b64_char_val (b1 / 4) (by omega)
    have h2 := b64_char_val (b1 % 4 * 16) (by omega)
    rw [show urlsafeB64Encode [b1] =
      [b64Char (b1 / 4), b64Char (b1 % 4 * 16), '=', '='] from rfl]
    rw [List.map_cons, List.map_cons, List.map_cons, List.map_cons, List.map_nil]
    rw [show b64Translate '=' = '=' from by decide]
    rw [List.filter_cons_of_pos (by simp [h1]), List.filter_cons_of_pos (by simp [h2]),
      List.filter_cons_of_pos (by decide), List.filter_cons_of_pos (by decide),
      List.filter_nil]
    simp only [b64Quads, h1, h2]
    have e1 : b1 / 4 * 4 + b1 % 4 * 16 / 16 = b1 := by omega
    simp only [e1, if_pos trivial, and_self, if_true]
  | [b1, b2], h => by
    have hb1 : b1 < 256 := h b1 (by simp)
    have hb2 : b2 < 256 := h b2 (by simp)
    have h1 := b64_char_val (b1 / 4) (by omega)
    have h2 := b64_char_val (b1 % 4 * 16 + b2 / 16) (by omega)
    have h3 := b64_char_val (b2 % 16 * 4) (by omega)
    have hne3 : b64Translate (b64Char (b2 % 16 * 4)) ≠ '=' :=
      b64_char_ne_pad _ (by omega)
    rw [show urlsafeB64Encode [b1, b2] =
      [b64Char (b1 / 4), b64Char (b1 % 4 * 16 + b2 / 16),
        b64Char (b2 % 16 * 4), '='] from rfl]
    rw [List.map_cons, List.map_cons, List.map_cons, List.map_cons, List.map_nil]
    rw [show b64Translate '=' = '=' from by decide]
    rw [List.filter_cons_of_pos (by simp [h1]), List.filter_cons_of_pos (by simp [h2]),
      List.filter_cons_of_pos (by simp [h3]), List.filter_cons_of_pos (by decide),
      List.filter_nil]
    simp only [b64Quads, h1, h2, h3, if_neg hne3]
    have e1 : b1 / 4 * 4 + (b1 % 4 * 16 + b2 / 16) / 16 = b1 := by omega
    have e2 : (b1 % 4 * 16 + b2 / 16) % 16 * 16 + b2 % 16 * 4 / 4 = b2 := by omega
    simp only [e1, e2, if_pos trivial, if_true]
  | b1 :: b2 :: b3 :: rest, h => by
    have hb1 : b1 < 256 := h b1 (by simp)
    have hb2 : b2 < 256 := h b2 (by simp)
    have hb3 : b3 < 256 := h b3 (by simp)
    have ih := b64_quads_encode rest (fun b hb => h b (by simp [hb]))
    have h1 := b64_char_val (b1 / 4) (by omega)
    have h2 := b64_char_val (b1 % 4 * 16 + b2 / 16) (by omega)
    have h3 := b64_char_val (b2 % 16 * 4 + b3 / 64) (by omega)
    have h4 := b64_char_val (b3 % 64) (by omega)
    have hne3 : b64Translate (b64Char (b2 % 16 * 4 + b3 / 64)) ≠ '=' :=
      b64_char_ne_pad _ (by omega)
    have hne4 : b64Translate (b64Char (b3 % 64)) ≠ '=' :=
      b64_char_ne_pad _ (by omega)
    rw [show urlsafeB64Encode (b1 :: b2 :: b3 :: rest) =
      b64Char (b1 / 4) :: b64Char (b1 % 4 * 16 + b2 / 16) ::
        b64Char (b2 % 16 * 4 + b3 / 64) :: b64Char (b3 % 64) ::
        urlsafeB64Encode rest from rfl]
    rw [List.map_cons, List.map_cons, List.map_cons, List.map_cons]
    rw [List.filter_cons_of_pos (by simp [h1]), List.filter_cons_of_pos (by simp [h2]),
      List.filter_cons_of_pos (by simp [h3]), List.filter_cons_of_pos (by simp [h4])]
    simp only [b64Quads, h1, h2, h3, h4, if_neg hne3, if_neg hne4]
    rw [ih]
    have e1 : b1 / 4 * 4 + (b1 % 4 * 16 + b2 / 16) / 16 = b1 := by omega
    have e2 : (b1 % 4 * 16 + b2 / 16) % 16 * 16 + (b2 % 16 * 4 + b3 / 64) / 4 = b2 := by
      omega
    have e3 : (b2 % 16 * 4 + b3 / 64) % 4 * 64 + b3 % 64 = b3 := by omega
    simp only [Except.map, e1, e2, e3]

/-- `urlsafe_b64decode` inverts `urlsafe_b64encode` on byte strings. -/
theorem pyUrlsafeB64Decode_encode (bs : List Nat) (h : ∀ b ∈ bs, b < 256) :
    pyUrlsafeB64Decode (urlsafeB64Encode bs) = .ok bs :=
  b64_quads_encode bs h

/-- Helper: an ASCII character encodes to its single code point. -/
theorem utf8EncodeChar_ascii (c : Char) (hc : c.toNat < 128) :
    utf8EncodeChar c = [c.toNat] := by
  simp [utf8EncodeChar, if_pos hc]

/-- Helper: ASCII-only text UTF-8-encodes to its list of code points. -/
theorem utf8Encode_ascii : ∀ (cs : List Char), (∀ c ∈ cs, c.toNat < 128) →
    utf8Encode cs = cs.map Char.toNat
  | [], _ => rfl
  | c :: rest, h => by
    rw [utf8Encode, List.flatMap_cons, utf8EncodeChar_ascii c (h c (by simp)),
      show rest.flatMap utf8EncodeChar = utf8Encode rest from rfl,
      utf8Encode_ascii rest (fun c' hc' => h c' (by simp [hc'])),
      List.map_cons, List.singleton_append]

/-- Helper: decoding a list of ASCII code points with enough fuel. -/
theorem utf8DecodeAux_ascii : ∀ (cs : List Char) (fuel : Nat),
    (∀ c ∈ cs, c.toNat < 128) → cs.length ≤ fuel →
    utf8DecodeAux fuel (cs.map Char.toNat) = some cs
  | [], fuel, _, _ => by cases fuel <;> rfl
  | c :: rest, 0, _, hle => by simp at hle
  | c :: rest, fuel + 1, h, hle => by
    have hc : c.toNat < 128 := h c (by simp)
    have hrest := utf8DecodeAux_ascii rest fuel
      (fun c' hc' => h c' (by simp [hc'])) (by simpa using Nat.lt_succ_iff.mp hle)
    rw [List.map_cons]
    simp only [utf8DecodeAux, utf8DecodeStep, if_pos hc]
    rw [hrest]
    simp [Char.ofNat_toNat]

/-- Helper: ASCII-only text UTF-8-encodes to its code points and decodes
back. -/
theorem utf8_ascii_roundtrip (cs : List Char) (h : ∀ c ∈ cs, c.toNat < 128) :
    utf8Decode (utf8Encode cs) = some cs := by
  rw [utf8Decode, utf8Encode_ascii cs h]
  exact utf8DecodeAux_ascii cs _ h (by simp)

/-- Helper: ASCII-only text encodes to bytes below 256. -/
theorem utf8_ascii_bytes_lt (cs : List Char) (h : ∀ c ∈ cs, c.toNat < 128) :
    ∀ b ∈ utf8Encode cs, b < 256 := by
  rw [utf8Encode_ascii cs h]
  intro b hb
  rcases List.mem_map.mp hb with ⟨c, hc, rfl⟩
  exact lt_trans (h c hc) (by norm_num)

/-! Lemmas tracing `json.loads` over the exact text `json.dumps` emits for
the cursor payload. -/

/-- Characters that `json.dumps` copies into a string literal verbatim and
`json.loads` reads back without unescaping (printable ASCII, no quote, no
backslash). -/
def jsonPlainChar (c : Char) : Bool :=
  32 ≤ c.toNat && c.toNat < 128 && c.toNat ≠ 34 && c.toNat ≠ 92

theorem char_ne_of_toNat (c d : Char) (h : c.toNat ≠ d.toNat) : c ≠ d :=
  fun he => h (by rw [he])

theorem jsonPlainChar_spec (c : Char) (h : jsonPlainChar c = true) :
    c ≠ '"' ∧ c ≠ '\\' ∧ ¬(c.toNat < 32) ∧ c.toNat < 128 := by
  simp only [jsonPlainChar, Bool.and_eq_true, decide_eq_true_iff] at h
  obtain ⟨⟨⟨h1, h2⟩, h3⟩, h4⟩ := h
  exact ⟨char_ne_of_toNat _ _ (by rw [show ('"').toNat = 34 from by decide]; omega),
    char_ne_of_toNat _ _ (by rw [show ('\\').toNat = 92 from by decide]; omega),
    by omega, h2⟩

theorem isDigitChar_toNat (c : Char) (h : isDigitChar c = true) :
    48 ≤ c.toNat ∧ c.toNat ≤ 57 := by
  simpa only [isDigitChar, Bool.and_eq_true, decide_eq_true_iff] using h

theorem isDigitChar_plain (c : Char) (h : isDigitChar c = true) :
    jsonPlainChar c = true := by
  obtain ⟨h1, h2⟩ := isDigitChar_toNat c h
  simp only [jsonPlainChar, Bool.and_eq_true, decide_eq_true_iff]
  omega

/-- A digit head falls through every non-number branch of the value
parser. -/
theorem isDigitChar_branches (c : Char) (h : isDigitChar c = true) :
    isWsChar c = false ∧ c ≠ '\x7b' ∧ c ≠ '[' ∧ c ≠ '"' ∧ c ≠ 't' ∧
      c ≠ 'f' ∧ c ≠ 'n' ∧ c ≠ '-' := by
  obtain ⟨h1, h2⟩ := isDigitChar_toNat c h
  have hsp : c ≠ ' ' :=
    char_ne_of_toNat _ _ (by rw [show (' ').toNat = 32 from by decide]; omega)
  have htb : c ≠ '\t' :=
    char_ne_of_toNat _ _ (by rw [show ('\t').toNat = 9 from by decide]; omega)
  have hnl : c ≠ '\n' :=
    char_ne_of_toNat _ _ (by rw [show ('\n').toNat = 10 from by decide]; omega)
  have hcr : c ≠ '\r' :=
    char_ne_of_toNat _ _ (by rw [show ('\r').toNat = 13 from by decide]; omega)
  refine ⟨by simp [isWsChar, hsp, htb, hnl, hcr], ?_, ?_, ?_, ?_, ?_, ?_, ?_⟩
  · exact char_ne_of_toNat _ _ (by rw [show ('\x7b').toNat = 123 from by decide]; omega)
  · exact char_ne_of_toNat _ _ (by rw [show ('[').toNat = 91 from by decide]; omega)
  · exact char_ne_of_toNat _ _ (by rw [show ('"').toNat = 34 from by decide]; omega)
  · exact char_ne_of_toNat _ _ (by rw [show ('t').toNat = 116 from by decide]; omega)
  · exact char_ne_of_toNat _ _ (by rw [show ('f').toNat = 102 from by decide]; omega)
  · exact char_ne_of_toNat _ _ (by rw [show ('n').toNat = 110 from by decide]; omega)
  · exact char_ne_of_toNat _ _ (by rw [show ('-').toNat = 45 from by decide]; omega)

theorem skipWs_cons_neg (c : Char) (r : List Char) (h : isWsChar c = false) :
    skipWs (c :: r) = c :: r := by
  simp [skipWs, List.dropWhile_cons, h]

theorem skipWs_cons_pos (c : Char) (r : List Char) (h : isWsChar c = true) :
    skipWs (c :: r) = skipWs r := by
  simp [skipWs, List.dropWhile_cons, h]

theorem takeWhile_append_cons {α} (p : α → Bool) :
    ∀ (l : List α) (a : α) (r : List α), (∀ c ∈ l, p c = true) → p a = false →
    (l ++ a :: r).takeWhile p = l
  | [], a, r, _, ha => by simp [List.takeWhile_cons, ha]
  | b :: l, a, r, hl, ha => by
    have hb : p b = true := hl b (by simp)
    simp only [List.cons_append, List.takeWhile_cons, hb, if_true,
      takeWhile_append_cons p l a r (fun c hc => hl c (by simp [hc])) ha]

theorem dropWhile_append_cons {α} (p : α → Bool) :
    ∀ (l : List α) (a : α) (r : List α), (∀ c ∈ l, p c = true) → p a = false →
    (l ++ a :: r).dropWhile p = a :: r
  | [], a, r, _, ha => by simp [List.dropWhile_cons, ha]
  | b :: l, a, r, hl, ha => by
    have hb : p b = true := hl b (by simp)
    simp only [List.cons_append, List.dropWhile_cons, hb, if_true,
      dropWhile_append_cons p l a r (fun c hc => hl c (by simp [hc])) ha]

/-- A plain string body parses back to itself up to the closing quote. -/
theorem parseStringAux_closed : ∀ (s : List Char) (fuel : Nat) (rest : List Char),
    (∀ c ∈ s, jsonPlainChar c = true) → s.length < fuel →
    parseStringAux fuel (s ++ '"' :: rest) = some (s, rest)
  | [], 0, _, _, hf => absurd hf (Nat.not_lt_zero _)
  | [], _ + 1, rest, _, _ => by
    simp only [List.nil_append, parseStringAux, if_pos trivial, eq_self_iff_true,
      if_true]
  | c :: s, 0, _, _, hf => absurd hf (Nat.not_lt_zero _)
  | c :: s, f + 1, rest, h, hf => by
    obtain ⟨h1, h2, h3, _⟩ := jsonPlainChar_spec c (h c (by simp))
    have ih := parseStringAux_closed s f rest (fun c' hc' => h c' (by simp [hc']))
      (by simp only [List.length_cons] at hf; omega)
    simp only [List.cons_append, parseStringAux, if_neg h1, if_neg h2, if_neg h3,
      List.append_eq, ih, Option.map_some']

theorem parseString_closed (s rest : List Char)
    (h : ∀ c ∈ s, jsonPlainChar c = true) :
    parseString (s ++ '"' :: rest) = some (s, rest) := by
  rw [parseString]
  refine parseStringAux_closed s _ rest h ?_
  simp [List.length_append]

theorem natToDigits_ne_nil (n : Nat) : natToDigits n ≠ [] := by
  rw [natToDigits]
  split
  · simp
  · simp

theorem natToDigits_digits (n : Nat) : ∀ c ∈ natToDigits n, isDigitChar c = true := by
  induction n using Nat.strong_induction_on with
  | _ n ih =>
    rw [natToDigits]
    split
    · next h =>
      intro c hc
      simp only [List.mem_singleton] at hc
      subst hc
      exact isDigitChar_digitChar n h
    · next h =>
      intro c hc
      rw [List.mem_append] at hc
      rcases hc with hc | hc
      · exact ih (n / 10) (Nat.div_lt_self (by omega) (by omega)) c hc
      · simp only [List.mem_singleton] at hc
        subst hc
        exact isDigitChar_digitChar _ (Nat.mod_lt _ (by omega))

theorem digitsToNat_append_singleton (l : List Char) (c : Char) :
    digitsToNat (l ++ [c]) = digitsToNat l * 10 + digitVal c := by
  simp [digitsToNat, List.foldl_append]

theorem digitsToNat_natToDigits (n : Nat) : digitsToNat (natToDigits n) = n := by
  induction n using Nat.strong_induction_on with
  | _ n ih =>
    rw [natToDigits]
    split
    · next h => simp [digitsToNat, digitVal_digitChar n h]
    · next h =>
      rw [digitsToNat_append_singleton,
        ih (n / 10) (Nat.div_lt_self (by omega) (by omega)),
        digitVal_digitChar _ (Nat.mod_lt _ (by omega))]
      omega

/-- The digit-run parser reads a rendered natural followed by a non-digit
delimiter. -/
theorem parseJsonNat_digits (n : Nat) (c : Char) (r : List Char)
    (hc : isDigitChar c = false) (hc2 : ¬(c = '.' ∨ c = 'e' ∨ c = 'E')) :
    parseJsonNat (natToDigits n ++ c :: r) = some (n, c :: r) := by
  have hemp : (natToDigits n).isEmpty = false := by
    cases heq : natToDigits n
    · exact absurd heq (natToDigits_ne_nil n)
    · rfl
  simp only [parseJsonNat,
    takeWhile_append_cons _ _ _ _ (natToDigits_digits n) hc,
    dropWhile_append_cons _ _ _ _ (natToDigits_digits n) hc,
    hemp, Bool.false_eq_true, if_false, if_neg hc2, digitsToNat_natToDigits]

/-- The signed integer parser reads a rendered positive `int` followed by a
non-digit delimiter. -/
theorem parseJsonInt_pos (i : Int) (hi : 1 ≤ i) (c : Char) (r : List Char)
    (hc : isDigitChar c = false) (hc2 : ¬(c = '.' ∨ c = 'e' ∨ c = 'E')) :
    parseJsonInt (renderInt i ++ c :: r) = some (JValue.num i, c :: r) := by
  rw [renderInt, if_neg (by omega : ¬i < 0)]
  obtain ⟨d, ds, hds⟩ : ∃ d ds, natToDigits i.natAbs = d :: ds := by
    cases heq : natToDigits i.natAbs
    · exact absurd heq (natToDigits_ne_nil _)
    · exact ⟨_, _, rfl⟩
  have hd : isDigitChar d = true := natToDigits_digits i.natAbs d (by rw [hds]; simp)
  have hdne : d ≠ '-' := (isDigitChar_branches d hd).2.2.2.2.2.2.2
  rw [hds, List.cons_append]
  simp only [parseJsonInt, if_neg hdne]
  rw [← List.cons_append, ← hds, parseJsonNat_digits i.natAbs c r hc hc2,
    Option.map_some']
  have hcast : ((i.natAbs : Int)) = i := by omega
  rw [hcast]

/-- Helper: a quoted plain string after one leading space parses as a JSON
string value. -/
theorem parseValue_str_sp (f : Nat) (s rest : List Char)
    (hs : ∀ c ∈ s, jsonPlainChar c = true) :
    parseValue (f + 1) (' ' :: '"' :: (s ++ '"' :: rest)) =
      some (JValue.str s, rest) := by
  have hskip : skipWs (' ' :: '"' :: (s ++ '"' :: rest)) = '"' :: (s ++ '"' :: rest) := by
    rw [skipWs_cons_pos _ _ (by decide), skipWs_cons_neg _ _ (by decide)]
  have h1 : ¬(('"' : Char) = '\x7b') := by decide
  have h2 : ¬(('"' : Char) = '[') := by decide
  simp only [parseValue, hskip, if_neg h1, if_neg h2, eq_self_iff_true,
    if_pos trivial, if_true, parseString_closed s rest hs, Option.map_some']

/-- Helper: a rendered positive integer after one leading space parses as a
JSON number value up to the closing brace. -/
theorem parseValue_int_cl (f : Nat) (i : Int) (hi : 1 ≤ i) :
    parseValue (f + 1) (' ' :: (renderInt i ++ ['\x7d'])) =
      some (JValue.num i, ['\x7d']) := by
  have hri : renderInt i = natToDigits i.natAbs := by
    rw [renderInt, if_neg (by omega : ¬i < 0)]
  obtain ⟨d, ds, hds⟩ : ∃ d ds, renderInt i = d :: ds := by
    rw [hri]
    cases heq : natToDigits i.natAbs
    · exact absurd heq (natToDigits_ne_nil _)
    · exact ⟨_, _, rfl⟩
  have hd : isDigitChar d = true :=
    natToDigits_digits i.natAbs d (by rw [← hri, hds]; simp)
  obtain ⟨hws, h7b, hbr, hq, ht, hf2, hn, -⟩ := isDigitChar_branches d hd
  have hskip : skipWs (' ' :: (renderInt i ++ ['\x7d'])) = d :: (ds ++ ['\x7d']) := by
    rw [hds, List.cons_append, skipWs_cons_pos _ _ (by decide),
      skipWs_cons_neg _ _ hws]
  simp only [parseValue, hskip, if_neg h7b, if_neg hbr, if_neg hq, if_neg ht,
    if_neg hf2, if_neg hn, if_pos (Or.inr hd)]
  rw [← List.cons_append, ← hds, parseJsonInt_pos i hi '\x7d' [] (by decide) (by decide)]

/-- Helper: the `"id": <n>` member list (after the separating space) parses
to a one-member object body ending the input. -/
theorem parseMembers_id (f : Nat) (i : Int) (hi : 1 ≤ i) :
    parseMembers (f + 2) (' ' :: '"' :: (idKey ++ '"' :: ':' :: ' ' ::
        (renderInt i ++ ['\x7d']))) =
      some ([(idKey, JValue.num i)], []) := by
  have hsk1 : skipWs (' ' :: '"' :: (idKey ++ '"' :: ':' :: ' ' ::
      (renderInt i ++ ['\x7d']))) = '"' :: (idKey ++ '"' :: ':' :: ' ' ::
      (renderInt i ++ ['\x7d'])) := by
    rw [skipWs_cons_pos _ _ (by decide), skipWs_cons_neg _ _ (by decide)]
  have hps : parseString (idKey ++ '"' :: ':' :: ' ' ::
      (renderInt i ++ ['\x7d'])) = some (idKey, ':' :: ' ' ::
      (renderInt i ++ ['\x7d'])) :=
    parseString_closed _ _ (by decide)
  have hsk2 : skipWs (':' :: ' ' :: (renderInt i ++ ['\x7d'])) =
      ':' :: ' ' :: (renderInt i ++ ['\x7d']) :=
    skipWs_cons_neg _ _ (by decide)
  have hB := parseValue_int_cl f i hi
  have hsk3 : skipWs ['\x7d'] = ['\x7d'] := skipWs_cons_neg _ _ (by decide)
  have hcomma : ¬(('\x7d' : Char) = ',') := by decide
  simp only [parseMembers, hsk1, eq_self_iff_true, if_pos trivial, if_true, hps,
    hsk2, hB, hsk3, if_neg hcomma]

/-- Helper: the full two-member body of the cursor object parses to both
members and consumes the whole input. -/
theorem parseMembers_cursor (f : Nat) (iso : List Char) (i : Int) (hi : 1 ≤ i)
    (hiso : ∀ c ∈ iso, jsonPlainChar c = true) :
    parseMembers (f + 3) ('"' :: (createdAtKey ++ '"' :: ':' :: ' ' :: '"' ::
        (iso ++ '"' :: ',' :: ' ' :: '"' :: (idKey ++ '"' :: ':' :: ' ' ::
          (renderInt i ++ ['\x7d']))))) =
      some ([(createdAtKey, JValue.str iso), (idKey, JValue.num i)], []) := by
  have hsk1 : skipWs ('"' :: (createdAtKey ++ '"' :: ':' :: ' ' :: '"' ::
      (iso ++ '"' :: ',' :: ' ' :: '"' :: (idKey ++ '"' :: ':' :: ' ' ::
        (renderInt i ++ ['\x7d']))))) = '"' :: (createdAtKey ++ '"' :: ':' ::
      ' ' :: '"' :: (iso ++ '"' :: ',' :: ' ' :: '"' :: (idKey ++ '"' :: ':' ::
        ' ' :: (renderInt i ++ ['\x7d'])))) :=
    skipWs_cons_neg _ _ (by decide)
  have hps : parseString (createdAtKey ++ '"' :: ':' :: ' ' :: '"' ::
      (iso ++ '"' :: ',' :: ' ' :: '"' :: (idKey ++ '"' :: ':' :: ' ' ::
        (renderInt i ++ ['\x7d'])))) = some (createdAtKey, ':' :: ' ' :: '"' ::
      (iso ++ '"' :: ',' :: ' ' :: '"' :: (idKey ++ '"' :: ':' :: ' ' ::
        (renderInt i ++ ['\x7d'])))) :=
    parseString_closed _ _ (by decide)
  have hsk2 : skipWs (':' :: ' ' :: '"' :: (iso ++ '"' :: ',' :: ' ' :: '"' ::
      (idKey ++ '"' :: ':' :: ' ' :: (renderInt i ++ ['\x7d'])))) =
      ':' :: ' ' :: '"' :: (iso ++ '"' :: ',' :: ' ' :: '"' ::
      (idKey ++ '"' :: ':' :: ' ' :: (renderInt i ++ ['\x7d']))) :=
    skipWs_cons_neg _ _ (by decide)
  have hval : parseValue (f + 2) (' ' :: '"' :: (iso ++ '"' :: ',' :: ' ' :: '"' ::
      (idKey ++ '"' :: ':' :: ' ' :: (renderInt i ++ ['\x7d'])))) =
      some (JValue.str iso, ',' :: ' ' :: '"' :: (idKey ++ '"' :: ':' :: ' ' ::
        (renderInt i ++ ['\x7d']))) :=
    parseValue_str_sp (f + 1) iso
      (',' :: ' ' :: '"' :: (idKey ++ '"' :: ':' :: ' ' ::
        (renderInt i ++ ['\x7d']))) hiso
  have hsk3 : skipWs (',' :: ' ' :: '"' :: (idKey ++ '"' :: ':' :: ' ' ::
      (renderInt i ++ ['\x7d']))) = ',' :: ' ' :: '"' :: (idKey ++ '"' :: ':' ::
      ' ' :: (renderInt i ++ ['\x7d'])) :=
    skipWs_cons_neg _ _ (by decide)
  have hmem := parseMembers_id f i hi
  rw [parseMembers]
  simp only [hsk1, eq_self_iff_true, if_pos trivial, if_true, hps,
    hsk2, hval, hsk3, hmem, Option.map_some']

/-- Helper: the dumped cursor object parses back as a two-field JSON object
consuming the whole input, at any sufficient fuel. -/
theorem parseValue_dumps (f : Nat) (iso : List Char) (i : Int) (hi : 1 ≤ i)
    (hiso : ∀ c ∈ iso, jsonPlainChar c = true) :
    parseValue (f + 5) (jsonDumpsCursor iso i) =
      some (JValue.obj [(createdAtKey, JValue.str iso),
        (idKey, JValue.num i)], []) := by
  rw [jsonDumpsCursor]
  have hsk1 : skipWs ('\x7b' :: '"' :: (createdAtKey ++ '"' :: ':' :: ' ' ::
      '"' :: (iso ++ '"' :: ',' :: ' ' :: '"' :: (idKey ++ '"' :: ':' :: ' ' ::
        (renderInt i ++ ['\x7d']))))) = '\x7b' :: '"' :: (createdAtKey ++ '"' ::
      ':' :: ' ' :: '"' :: (iso ++ '"' :: ',' :: ' ' :: '"' :: (idKey ++ '"' ::
        ':' :: ' ' :: (renderInt i ++ ['\x7d'])))) :=
    skipWs_cons_neg _ _ (by decide)
  have hsk2 : skipWs ('"' :: (createdAtKey ++ '"' :: ':' :: ' ' :: '"' ::
      (iso ++ '"' :: ',' :: ' ' :: '"' :: (idKey ++ '"' :: ':' :: ' ' ::
        (renderInt i ++ ['\x7d']))))) = '"' :: (createdAtKey ++ '"' :: ':' ::
      ' ' :: '"' :: (iso ++ '"' :: ',' :: ' ' :: '"' :: (idKey ++ '"' :: ':' ::
        ' ' :: (renderInt i ++ ['\x7d'])))) :=
    skipWs_cons_neg _ _ (by decide)
  have h7d : ¬(('"' : Char) = '\x7d') := by decide
  have hmem := parseMembers_cursor f iso i hi hiso
  simp only [parseValue, parseObjBody, hsk1, hsk2, eq_self_iff_true, if_pos trivial,
    if_true, if_neg h7d, hmem, Option.map_some']

/-- Helper: `json.loads` inverts `json.dumps` on the cursor payload. -/
theorem jsonLoads_dumps (iso : List Char) (i : Int) (hi : 1 ≤ i)
    (hiso : ∀ c ∈ iso, jsonPlainChar c = true) :
    jsonLoads (jsonDumpsCursor iso i) =
      .ok (JValue.obj [(createdAtKey, JValue.str iso),
        (idKey, JValue.num i)]) := by
  rw [jsonLoads]
  have hlen : 4 * (jsonDumpsCursor iso i).length + 4 =
      (4 * (jsonDumpsCursor iso i).length - 1) + 5 := by
    have h1 : 1 ≤ (jsonDumpsCursor iso i).length := by
      rw [jsonDumpsCursor]
      simp
    omega
  rw [hlen, parseValue_dumps _ iso i hi hiso]
  simp [skipWs]

/-! The cursor codec itself (`encode_cursor` / `decode_cursor`). -/

/-- The Python exception kinds `decode_cursor` can surface: `ValueError`
(raised by the function itself), and `TypeError`/`KeyError` which its
`except` clauses do not catch at the membership-test stage. -/
inductive PyError where
  | valueError (msg : String)
  | typeError (msg : String)
  | keyError (msg : String)
deriving Repr, DecidableEq

/-- `encode_cursor`: `json.dumps({"created_at": ..., "id": ...})`,
UTF-8-encoded and urlsafe-base64-encoded. -/
def encode_cursor (created_at : PyDateTime) (message_id : Int) : List Char :=
  urlsafeB64Encode (utf8Encode (jsonDumpsCursor created_at.isoformat message_id))

/-- Substring test (`key in s` for Python `str`). -/
def listInfix (needle hay : List Char) : Bool :=
  hay.tails.any (listStarts needle)

def jvIsStrEq (key : List Char) : JValue → Bool
  | .str s => s == key
  | _ => false

/-- Python `key not in v` over the possible `json.loads` results: key test
for dicts, substring test for strings, element equality for lists, and a
`TypeError` for non-iterables. -/
def pyNotIn (key : List Char) : JValue → Except String Bool
  | .obj fields => .ok (!(fields.any (fun p => p.1 == key)))
  | .str s => .ok (!(listInfix key s))
  | .arr items => .ok (!(items.any (jvIsStrEq key)))
  | .nullv => .error "argument of type 'NoneType' is not iterable"
  | .boolv _ => .error "argument of type 'bool' is not iterable"
  | .num _ => .error "argument of type 'int' is not iterable"

/-- Lookup in a parsed JSON object; with duplicate keys the last occurrence
wins, as in the `dict` `json.loads` builds. -/
def jvGet (fields : List (List Char × JValue)) (key : List Char) : Option JValue :=
  ((fields.filter (fun p => p.1 == key)).getLast?).map Prod.snd

/-- Python `v[key]` for a string key. -/
def pyIndex (v : JValue) (key : List Char) : Except PyError JValue :=
  match v with
  | .obj fields =>
    match jvGet fields key with
    | some x => .ok x
    | none => .error (.keyError "key not found")
  | .str _ => .error (.typeError "string indices must be integers")
  | .arr _ => .error (.typeError "list indices must be integers or slices, not str")
  | _ => .error (.typeError "object is not subscriptable")

/-- `datetime.fromisoformat` applied to a decoded JSON value: only strings
are accepted. -/
def pyFromIsoformat : JValue → Except String PyDateTime
  | .str s =>
    match fromisoformat s with
    | some d => .ok d
    | none => .error "Invalid isoformat string"
  | _ => .error "fromisoformat: argument must be str"

/-- `int(s)` for a string: optional surrounding whitespace, optional sign,
then decimal digits. -/
def pyIntOfString (s : List Char) : Option Int :=
  match ((s.dropWhile isWsChar).reverse.dropWhile isWsChar).reverse with
  | [] => none
  | c :: ds =>
    if c = '-' then
      if ds ≠ [] ∧ ds.all isDigitChar then some (-(digitsToNat ds : Int)) else none
    else if c = '+' then
      if ds ≠ [] ∧ ds.all isDigitChar then some ((digitsToNat ds : Int)) else none
    else
      if (c :: ds).all isDigitChar then some ((digitsToNat (c :: ds) : Int)) else none

/-- `int(v)` over the possible `json.loads` results (integers in the
modelled subset). -/
def pyInt : JValue → Except String Int
  | .num n => .ok n
  | .boolv b => .ok (if b then 1 else 0)
  | .str s =>
    match pyIntOfString s with
    | some n => .ok n
    | none => .error "invalid literal for int() with base 10"
  | .nullv => .error "int() argument must be a string, a bytes-like object or a real number, not 'NoneType'"
  | .arr _ => .error "int() argument must be a string, a bytes-like object or a real number, not 'list'"
  | .obj _ => .error "int() argument must be a string, a bytes-like object or a real number, not 'dict'"

/-- The representative `UnicodeDecodeError` detail text. -/
def utf8ErrDetail : String := "'utf-8' codec can't decode byte"

/-- `decode_cursor`, stage by stage as in the source: base64 and JSON
failures are caught into `Invalid cursor format`; the field test may raise
an uncaught `TypeError`; timestamp and id conversion failures are caught
into their own messages; a non-positive id raises a `ValueError` that the
surrounding `except` rewraps. -/
def decode_cursor (cursor : List Char) : Except PyError (PyDateTime × Int) :=
  match pyUrlsafeB64Decode cursor with
  | .error m => .error (.valueError ("Invalid cursor format: " ++ m))
  | .ok bytes =>
    match utf8Decode bytes with
    | none => .error (.valueError ("Invalid cursor format: " ++ utf8ErrDetail))
    | some text =>
      match jsonLoads text with
      | .error m => .error (.valueError ("Invalid cursor format: " ++ m))
      | .ok v =>
        match pyNotIn createdAtKey v with
        | .error m => .error (.typeError m)
        | .ok true =>
          .error (.valueError "Cursor missing required fields (created_at, id)")
        | .ok false =>
          match pyNotIn idKey v with
          | .error m => .error (.typeError m)
          | .ok true =>
            .error (.valueError "Cursor missing required fields (created_at, id)")
          | .ok false =>
            match pyIndex v createdAtKey with
            | .error (.keyError m) => .error (.keyError m)
            | .error (.valueError m) =>
              .error (.valueError ("Invalid timestamp in cursor: " ++ m))
            | .error (.typeError m) =>
              .error (.valueError ("Invalid timestamp in cursor: " ++ m))
            | .ok tv =>
              match pyFromIsoformat tv with
              | .error m => .error (.valueError ("Invalid timestamp in cursor: " ++ m))
              | .ok dt =>
                match pyIndex v idKey with
                | .error (.keyError m) => .error (.keyError m)
                | .error (.valueError m) =>
                  .error (.valueError ("Invalid message ID in cursor: " ++ m))
                | .error (.typeError m) =>
                  .error (.valueError ("Invalid message ID in cursor: " ++ m))
                | .ok iv =>
                  match pyInt iv with
                  | .error m =>
                    .error (.valueError ("Invalid message ID in cursor: " ++ m))
                  | .ok mid =>
                    if mid ≤ 0 then
                      .error (.valueError
                        ("Invalid message ID in cursor: " ++ "Message ID must be positive"))
                    else .ok (dt, mid)

/-- Helper: in-range zero-padded numerals consist of plain characters. -/
theorem padNat_plain : ∀ (w n : Nat), n < 10 ^ w →
    ∀ c ∈ padNat w n, jsonPlainChar c = true
  | 0, n, _, c, hc => absurd hc (by simp [padNat])
  | w + 1, n, h, c, hc => by
    simp only [padNat, List.mem_cons] at hc
    rcases hc with rfl | hc
    · exact isDigitChar_plain _ (isDigitChar_digitChar _
        (Nat.div_lt_of_lt_mul (by rw [pow_succ] at h; exact h)))
    · exact padNat_plain w (n % 10 ^ w)
        (Nat.mod_lt _ (Nat.pos_pow_of_pos w (by omega))) c hc

/-- Helper: the isoformat text of a valid datetime consists of plain
printable characters. -/
theorem isoformat_plain (d : PyDateTime) (h : d.isValid = true) :
    ∀ c ∈ d.isoformat, jsonPlainChar c = true := by
  have hv := h
  simp only [PyDateTime.isValid, Bool.and_eq_true, decide_eq_true_iff] at hv
  obtain ⟨⟨⟨⟨⟨⟨⟨⟨⟨⟨-, hy2⟩, -⟩, hmo2⟩, -⟩, hd2⟩, hhr⟩, hmi⟩, hs⟩, hus⟩, htz⟩ := hv
  have hdim := daysInMonth_le d.year d.month
  intro c hc
  rw [PyDateTime.isoformat] at hc
  simp only [List.mem_append, List.mem_cons] at hc
  rcases hc with hc | rfl | hc | rfl | hc | rfl | hc | rfl | hc | rfl | hc | hc | hc
  · exact padNat_plain 4 _ (by omega) c hc
  · decide
  · exact padNat_plain 2 _ (by omega) c hc
  · decide
  · exact padNat_plain 2 _ (by omega) c hc
  · decide
  · exact padNat_plain 2 _ (by omega) c hc
  · decide
  · exact padNat_plain 2 _ (by omega) c hc
  · decide
  · exact padNat_plain 2 _ (by omega) c hc
  · rw [isoFrac] at hc
    by_cases hz : (d.microsecond == 0) = true
    · rw [if_pos hz] at hc
      exact absurd hc (List.not_mem_nil c)
    · rw [if_neg hz] at hc
      simp only [List.mem_cons] at hc
      rcases hc with rfl | hc
      · decide
      · exact padNat_plain 6 _ (by omega) c hc
  · match hct : d.tzOffset with
    | none =>
      rw [hct] at hc
      simp only [isoOffset] at hc
      exact absurd hc (List.not_mem_nil c)
    | some o =>
      rw [hct] at hc htz
      rw [Bool.and_eq_true, decide_eq_true_iff, decide_eq_true_iff] at htz
      simp only [isoOffset, List.mem_cons, List.mem_append] at hc
      rcases hc with rfl | hc | rfl | hc
      · split <;> decide
      · exact padNat_plain 2 _ (by omega) c hc
      · decide
      · exact padNat_plain 2 _ (by omega) c hc

/-- Helper: a rendered positive integer consists of ASCII characters. -/
theorem renderInt_ascii (i : Int) (hi : 1 ≤ i) :
    ∀ c ∈ renderInt i, c.toNat < 128 := by
  have hri : renderInt i = natToDigits i.natAbs := by
    rw [renderInt, if_neg (by omega : ¬i < 0)]
  intro c hc
  rw [hri] at hc
  have := isDigitChar_toNat c (natToDigits_digits _ c hc)
  omega

/-- Helper: the dumped cursor text is pure ASCII. -/
theorem jsonDumpsCursor_ascii (iso : List Char) (i : Int) (hi : 1 ≤ i)
    (hiso : ∀ c ∈ iso, jsonPlainChar c = true) :
    ∀ c ∈ jsonDumpsCursor iso i, c.toNat < 128 := by
  have h1 : ∀ c ∈ createdAtKey, c.toNat < 128 := by decide
  have h2 : ∀ c ∈ idKey, c.toNat < 128 := by decide
  have h3 := renderInt_ascii i hi
  have h4 : ∀ c ∈ iso, c.toNat < 128 :=
    fun c hc => (jsonPlainChar_spec c (hiso c hc)).2.2.2
  intro c hc
  rw [jsonDumpsCursor] at hc
  simp only [List.mem_cons, List.mem_append, List.not_mem_nil, or_false] at hc
  rcases hc with rfl | rfl | hm | rfl | rfl | rfl | rfl | hm | rfl | rfl | rfl | rfl |
    hm | rfl | rfl | rfl | hm | rfl
  all_goals first
    | decide
    | exact h1 c hm
    | exact h2 c hm
    | exact h3 c hm
    | exact h4 c hm

/-- C4: `decode_cursor` inverts `encode_cursor` exactly — timestamp
(including microseconds and UTC offset) and positive id round-trip. -/
theorem decode_encode_cursor (d : PyDateTime) (i : Int)
    (hd : d.isValid = true) (hi : 1 ≤ i) :
    decode_cursor (encode_cursor d i) = .ok (d, i) := by
  have hiso := isoformat_plain d hd
  have htext := jsonDumpsCursor_ascii d.isoformat i hi hiso
  have h1 : pyUrlsafeB64Decode (urlsafeB64Encode (utf8Encode
      (jsonDumpsCursor d.isoformat i))) =
      .ok (utf8Encode (jsonDumpsCursor d.isoformat i)) :=
    pyUrlsafeB64Decode_encode _ (utf8_ascii_bytes_lt _ htext)
  have h2 : utf8Decode (utf8Encode (jsonDumpsCursor d.isoformat i)) =
      some (jsonDumpsCursor d.isoformat i) :=
    utf8_ascii_roundtrip _ htext
  have h3 := jsonLoads_dumps d.isoformat i hi hiso
  have hkne : (createdAtKey == idKey) = false := by decide
  have hkne2 : (idKey == createdAtKey) = false := by decide
  have hn1 : pyNotIn createdAtKey (JValue.obj [(createdAtKey, JValue.str d.isoformat),
      (idKey, JValue.num i)]) = .ok false := by
    simp [pyNotIn]
  have hn2 : pyNotIn idKey (JValue.obj [(createdAtKey, JValue.str d.isoformat),
      (idKey, JValue.num i)]) = .ok false := by
    simp [pyNotIn, hkne]
  have hx1 : pyIndex (JValue.obj [(createdAtKey, JValue.str d.isoformat),
      (idKey, JValue.num i)]) createdAtKey = .ok (JValue.str d.isoformat) := by
    simp [pyIndex, jvGet, hkne2]
  have hx2 : pyIndex (JValue.obj [(createdAtKey, JValue.str d.isoformat),
      (idKey, JValue.num i)]) idKey = .ok (JValue.num i) := by
    simp [pyIndex, jvGet, hkne]
  have hts : pyFromIsoformat (JValue.str d.isoformat) = .ok d := by
    simp only [pyFromIsoformat, fromisoformat_isoformat d hd]
  have hid : pyInt (JValue.num i) = .ok i := rfl
  rw [encode_cursor]
  simp only [decode_cursor, h1, h2, h3, hn1, hn2, hx1, hx2, hts, hid,
    if_neg (by omega : ¬i ≤ 0)]

/-- Witness for C4 at a concrete aware datetime with microseconds. -/
theorem decode_encode_cursor_witness :
    (⟨2024, 5, 17, 12, 34, 56, 123456, some 150⟩ : PyDateTime).isValid = true ∧
    (1 : Int) ≤ 42 ∧
    decode_cursor (encode_cursor ⟨2024, 5, 17, 12, 34, 56, 123456, some 150⟩ 42) =
      .ok (⟨2024, 5, 17, 12, 34, 56, 123456, some 150⟩, 42) :=
  ⟨by decide, by norm_num,
    decode_encode_cursor ⟨2024, 5, 17, 12, 34, 56, 123456, some 150⟩ 42
      (by decide) (by norm_num)⟩

/-- C5: `decode_cursor` returns no value on any of the five bad-input
classes — base64 failure, non-JSON payload, missing `created_at`/`id`
field, unparsable timestamp, and non-positive id — each failing with its
own error, and the five descriptive messages are pairwise distinct. -/
theorem decode_cursor_error_classes :
    (∀ (s : List Char) (m : String), pyUrlsafeB64Decode s = .error m →
      decode_cursor s = .error (.valueError ("Invalid cursor format: " ++ m))) ∧
    (∀ (s : List Char) (bytes : List Nat) (text : List Char) (m : String),
      pyUrlsafeB64Decode s = .ok bytes → utf8Decode bytes = some text →
      jsonLoads text = .error m →
      decode_cursor s = .error (.valueError ("Invalid cursor format: " ++ m))) ∧
    (∀ (s : List Char) (bytes : List Nat) (text : List Char)
      (fields : List (List Char × JValue)),
      pyUrlsafeB64Decode s = .ok bytes → utf8Decode bytes = some text →
      jsonLoads text = .ok (JValue.obj fields) →
      (fields.any (fun p => p.1 == createdAtKey) = false ∨
        fields.any (fun p => p.1 == idKey) = false) →
      decode_cursor s =
        .error (.valueError "Cursor missing required fields (created_at, id)")) ∧
    (∀ (s : List Char) (bytes : List Nat) (text : List Char)
      (fields : List (List Char × JValue)) (tv : JValue) (m : String),
      pyUrlsafeB64Decode s = .ok bytes → utf8Decode bytes = some text →
      jsonLoads text = .ok (JValue.obj fields) →
      fields.any (fun p => p.1 == createdAtKey) = true →
      fields.any (fun p => p.1 == idKey) = true →
      jvGet fields createdAtKey = some tv →
      pyFromIsoformat tv = .error m →
      decode_cursor s =
        .error (.valueError ("Invalid timestamp in cursor: " ++ m))) ∧
    (∀ (s : List Char) (bytes : List Nat) (text : List Char)
      (fields : List (List Char × JValue)) (tv : JValue) (dt : PyDateTime) (n : Int),
      pyUrlsafeB64Decode s = .ok bytes → utf8Decode bytes = some text →
      jsonLoads text = .ok (JValue.obj fields) →
      fields.any (fun p => p.1 == createdAtKey) = true →
      fields.any (fun p => p.1 == idKey) = true →
      jvGet fields createdAtKey = some tv →
      pyFromIsoformat tv = .ok dt →
      jvGet fields idKey = some (JValue.num n) →
      n ≤ 0 →
      decode_cursor s = .error (.valueError
        ("Invalid message ID in cursor: " ++ "Message ID must be positive"))) ∧
    ([("Invalid cursor format: " ++ "Incorrect padding" : String),
      "Invalid cursor format: " ++ "Expecting value",
      "Cursor missing required fields (created_at, id)",
      "Invalid timestamp in cursor: " ++ "fromisoformat: argument must be str",
      "Invalid message ID in cursor: " ++ "Message ID must be positive"]).Pairwise
      (fun a b => a ≠ b) := by
  refine ⟨?_, ?_, ?_, ?_, ?_, by decide⟩
  · intro s m h
    simp only [decode_cursor, h]
  · intro s bytes text m h1 h2 h3
    simp only [decode_cursor, h1, h2, h3]
  · intro s bytes text fields h1 h2 h3 h4
    simp only [decode_cursor, h1, h2, h3, pyNotIn]
    rcases h4 with h4 | h4
    · simp [h4]
    · cases hany1 : fields.any (fun p => p.1 == createdAtKey)
      · simp [hany1]
      · simp [hany1, h4]
  · intro s bytes text fields tv m h1 h2 h3 hany1 hany2 hjv herr
    simp only [decode_cursor, h1, h2, h3, pyNotIn, hany1, hany2, Bool.not_true,
      pyIndex, hjv, herr]
  · intro s bytes text fields tv dt n h1 h2 h3 hany1 hany2 hjvc hts hjvi hn
    simp only [decode_cursor, h1, h2, h3, pyNotIn, hany1, hany2, Bool.not_true,
      pyIndex, hjvc, hts, hjvi, pyInt, if_pos hn]

/-- Witness for C5: one concrete input per failure class, decoded through
the classification theorem. -/
theorem decode_cursor_error_classes_witness :
    decode_cursor ['a'] =
      .error (.valueError ("Invalid cursor format: " ++ "Incorrect padding")) ∧
    decode_cursor (urlsafeB64Encode (utf8Encode ['x'])) =
      .error (.valueError ("Invalid cursor format: " ++ "Expecting value")) ∧
    decode_cursor (urlsafeB64Encode (utf8Encode ['\x7b', '\x7d'])) =
      .error (.valueError "Cursor missing required fields (created_at, id)") ∧
    decode_cursor (urlsafeB64Encode (utf8Encode
        "\x7b\"created_at\": 5, \"id\": 1\x7d".data)) =
      .error (.valueError ("Invalid timestamp in cursor: " ++
        "fromisoformat: argument must be str")) ∧
    decode_cursor (urlsafeB64Encode (utf8Encode
        "\x7b\"created_at\": \"2024-05-17T12:00:00\", \"id\": 0\x7d".data)) =
      .error (.valueError ("Invalid message ID in cursor: " ++
        "Message ID must be positive")) :=
  ⟨decode_cursor_error_classes.1 ['a'] _ rfl,
   decode_cursor_error_classes.2.1 _ [120] ['x'] _ rfl rfl rfl,
   decode_cursor_error_classes.2.2.1 _ [123, 125] ['\x7b', '\x7d'] []
     rfl rfl rfl (Or.inl rfl),
   decode_cursor_error_classes.2.2.2.1 _
     (utf8Encode "\x7b\"created_at\": 5, \"id\": 1\x7d".data)
     "\x7b\"created_at\": 5, \"id\": 1\x7d".data
     [(createdAtKey, JValue.num 5), (idKey, JValue.num 1)] (JValue.num 5) _
     rfl rfl rfl rfl rfl rfl rfl,
   decode_cursor_error_classes.2.2.2.2.1 _
     (utf8Encode "\x7b\"created_at\": \"2024-05-17T12:00:00\", \"id\": 0\x7d".data)
     "\x7b\"created_at\": \"2024-05-17T12:00:00\", \"id\": 0\x7d".data
     [(createdAtKey, JValue.str "2024-05-17T12:00:00".data), (idKey, JValue.num 0)]
     (JValue.str "2024-05-17T12:00:00".data) ⟨2024, 5, 17, 12, 0, 0, 0, none⟩ 0
     rfl rfl rfl rfl rfl rfl rfl rfl (by norm_num)⟩

end Rostra
